import Mathlib

/-!
Verification of the `continuum-node` gateway (Python) against its
natural-language specification.

The embedding is shallow and stays at the level of the Python source:

* Python `str` values are modelled as lists of Unicode code points
  (`PyStr := List Nat`); `bytes` values as lists of byte values (`List Nat`,
  each element < 256).
* JSON-representable Python objects (`dict` / `list` / `str` / `int` /
  `bool` / `None`) are modelled by the inductive `Json`.  Arrays and
  objects are encoded as right-nested spines (`arrCons` / `objCons`) so
  that every function on them is plain structural recursion and every
  closed evaluation reduces in the kernel.  `float` payloads are outside
  the embedding.
* `json.dumps(..., ensure_ascii=False)` and the fragment of `json.loads`
  exercised by this program are modelled byte-for-byte (`jsonDumps`,
  `json_loads`), including string escapes, the `", "` / `": "` default
  separators and dict key collapsing.
* Wall-clock timestamps (Python `time.time()` floats) are modelled as
  integers; every property claimed about the rate limiter is purely
  order-theoretic, so nothing is lost by the discretisation.
* Fallible Python code (raised exceptions) is modelled with
  `Except` / `Option` results.
-/

deriving instance DecidableEq for Except

namespace Continuum

/-! ## Python strings as code-point lists -/

/-- A Python `str`, as its list of Unicode code points. -/
abbrev PyStr := List Nat

/-- Convenience: the code points of a Lean string literal. -/
def pys (s : String) : PyStr := s.data.map Char.toNat

/-- Python `str.isspace` restricted to the ASCII range: TAB, LF, VT, FF,
CR, FS, GS, RS, US and space.  (`str.rstrip()` strips exactly these when
the string is ASCII, as the decoded frame type in `protocol.py` always is.) -/
def pyIsSpaceAscii (c : Nat) : Bool :=
  (9 ≤ c && c ≤ 13) || (28 ≤ c && c ≤ 32)

/-- Python `str.rstrip()` (no argument: strips trailing whitespace). -/
def pyRstrip (s : PyStr) : PyStr :=
  (s.reverse.dropWhile pyIsSpaceAscii).reverse

/-- Stripping only trailing *space* characters (code point 32).  This is the
spec's words — "type with trailing spaces stripped" — kept separate from the
code's `pyRstrip` so the two can be compared. -/
def specStripTrailingSpaces (s : PyStr) : PyStr :=
  (s.reverse.dropWhile (fun c => c = 32)).reverse

/-- Python `str.lower()` on the ASCII letters (provider type codes are ASCII). -/
def pyLower (s : PyStr) : PyStr :=
  s.map (fun c => if 65 ≤ c ∧ c ≤ 90 then c + 32 else c)

/-- Python `s.split(sep)` for a one-character separator. -/
def pySplitOn (sep : Nat) : PyStr → List PyStr
  | [] => [[]]
  | c :: cs =>
    let r := pySplitOn sep cs
    if c = sep then [] :: r
    else
      match r with
      | [] => [[c]]
      | g :: gs => (c :: g) :: gs

/-- ASCII decimal digit test. -/
def isDigitCp (c : Nat) : Bool := 48 ≤ c && c ≤ 57

/-- Python `int(s)` on the fragment this program feeds it: optional
surrounding ASCII whitespace, an optional sign, then at least one ASCII
digit (the underscore-separator syntax of Python numerals is not modelled;
no configuration in this repository uses it). -/
def pyInt (s : PyStr) : Option Int :=
  let t := (s.dropWhile pyIsSpaceAscii).reverse.dropWhile pyIsSpaceAscii |>.reverse
  let core : PyStr → Option Int := fun ds =>
    if ds = [] then none
    else if ds.all isDigitCp then
      some (ds.foldl (fun a c => a * 10 + ((c : Int) - 48)) 0)
    else none
  match t with
  | 45 :: ds => (core ds).map (fun n => -n)
  | 43 :: ds => core ds
  | ds => core ds

/-! ## JSON values

A JSON-representable Python object.  Arrays and objects are right-nested
spines: the Python list `[a, b]` is `arrCons a (arrCons b arrNil)` and the
dict is the analogous `objCons` spine (one entry per key, in insertion
order).  The spine encoding keeps every recursion structural. -/

inductive Json where
  | null
  | bool (b : Bool)
  | num (n : Int)
  | str (s : PyStr)
  | arrNil
  | arrCons (hd : Json) (tl : Json)
  | objNil
  | objCons (k : PyStr) (v : Json) (tl : Json)
deriving DecidableEq, Repr

/-- Build an array spine from a list (readability helper for statements). -/
def jarr (xs : List Json) : Json := xs.foldr Json.arrCons Json.arrNil

/-- Build an object spine from an assoc list (readability helper). -/
def jobj (kvs : List (PyStr × Json)) : Json :=
  kvs.foldr (fun kv t => Json.objCons kv.1 kv.2 t) Json.objNil

/-- Is the value an array spine cell (`list` in Python)? -/
def isArrShape : Json → Bool
  | .arrNil | .arrCons _ _ => true
  | _ => false

/-- Is the value an object spine cell (`dict` in Python)? -/
def isObjShape : Json → Bool
  | .objNil | .objCons _ _ _ => true
  | _ => false

/-- Does the object spine bind the key? -/
def objHasKey : Json → PyStr → Bool
  | .objCons k _ tl, key => k = key || objHasKey tl key
  | _, _ => false

/-- Look a key up in an object spine (Python `dict.get`). -/
def objGet : Json → PyStr → Option Json
  | .objCons k v tl, key => if k = key then some v else objGet tl key
  | _, _ => none

/-- Well-formedness of a value as a Python object: array/object tails have
the matching shape and no dict binds a key twice. -/
def jsonWF : Json → Bool
  | .null | .bool _ | .num _ | .str _ | .arrNil | .objNil => true
  | .arrCons hd tl => jsonWF hd && isArrShape tl && jsonWF tl
  | .objCons k v tl => jsonWF v && isObjShape tl && jsonWF tl && !objHasKey tl k

/-- A valid Unicode scalar value: what `str.encode('utf-8')` accepts
(code point below the surrogate block, or between it and 0x110000). -/
def vsc (c : Nat) : Bool := c < 55296 || (57344 ≤ c && c < 1114112)

/-- Every string (and key) in the value consists of valid scalar values,
so the serialized payload UTF-8–encodes without error. -/
def strsValid : Json → Bool
  | .str s => s.all vsc
  | .arrCons hd tl => strsValid hd && strsValid tl
  | .objCons k v tl => k.all vsc && strsValid v && strsValid tl
  | _ => true

/-! ## `json.dumps(payload, ensure_ascii=False)`

Byte-for-byte model of the serializer used by
`ContinuumProtocol.pack_message` (`protocol.py`, line 31): default
separators `", "` and `": "`, `ensure_ascii=False` so code points ≥ 0x20
pass through unescaped, and the standard two-character escapes plus
`\u00XX` for the remaining control characters. -/

/-- Lowercase hex digit for a value below 16. -/
def hexDigitL (n : Nat) : Nat := if n < 10 then 48 + n else 87 + n

/-- How `json.dumps` escapes one character of a string
(the `ESCAPE_DCT` table of the `json.encoder` module). -/
def escChar (c : Nat) : List Nat :=
  if c = 34 then [92, 34]
  else if c = 92 then [92, 92]
  else if c = 8 then [92, 98]
  else if c = 12 then [92, 102]
  else if c = 10 then [92, 110]
  else if c = 13 then [92, 114]
  else if c = 9 then [92, 116]
  else if c < 32 then [92, 117, 48, 48, hexDigitL (c / 16), hexDigitL (c % 16)]
  else [c]

/-- A serialized JSON string: quote, escaped body, quote. -/
def encodeStr (s : PyStr) : List Nat := 34 :: (s.flatMap escChar ++ [34])

/-- Decimal digits of a natural number, most significant first.  The fuel
argument keeps the recursion structural; `natDec` supplies enough. -/
def natDecAux : Nat → Nat → List Nat
  | 0, _ => []
  | f + 1, n => if n < 10 then [48 + n] else natDecAux f (n / 10) ++ [48 + n % 10]

/-- Decimal rendering of a natural number. -/
def natDec (n : Nat) : List Nat := natDecAux (n + 1) n

/-- Decimal rendering of a Python `int` (`repr`, as `json.dumps` emits it). -/
def intDec (i : Int) : List Nat :=
  if i < 0 then 45 :: natDec i.natAbs else natDec i.natAbs

mutual

/-- The serializer itself.  `dumpItems`/`dumpMembers` render the
`", "`-separated continuation of an array/object spine. -/
def jsonDumps : Json → List Nat
  | .null => [110, 117, 108, 108]
  | .bool true => [116, 114, 117, 101]
  | .bool false => [102, 97, 108, 115, 101]
  | .num i => intDec i
  | .str s => encodeStr s
  | .arrNil => [91, 93]
  | .arrCons hd tl => 91 :: (jsonDumps hd ++ dumpItems tl ++ [93])
  | .objNil => [123, 125]
  | .objCons k v tl =>
    123 :: (encodeStr k ++ [58, 32] ++ jsonDumps v ++ dumpMembers tl ++ [125])

def dumpItems : Json → List Nat
  | .arrCons hd tl => [44, 32] ++ jsonDumps hd ++ dumpItems tl
  | _ => []

def dumpMembers : Json → List Nat
  | .objCons k v tl =>
    [44, 32] ++ encodeStr k ++ [58, 32] ++ jsonDumps v ++ dumpMembers tl
  | _ => []

end

/-! ## The `json.loads` fragment

A recursive-descent model of `json.loads` on the grammar this program
exchanges (strict mode).  The `fuel` argument makes the mutual recursion
structural; `json_loads` passes enough fuel for any input of its length.
Deviations outside the exercised fragment (floats, `NaN`/`Infinity`,
leading zeros, `\uXXXX` surrogate-pair combination) return `none` or are
not distinguished — no rendered payload of this program reaches them. -/

/-- JSON whitespace (the scanner's skip set: space, TAB, LF, CR). -/
def isJWs (c : Nat) : Bool := c = 32 || c = 9 || c = 10 || c = 13

/-- Skip JSON whitespace. -/
def skipWs (cs : List Nat) : List Nat := cs.dropWhile isJWs

/-- Strip an expected literal continuation (`ull` of `null`, ...). -/
def dropPre : List Nat → List Nat → Option (List Nat)
  | [], cs => some cs
  | p :: ps, c :: cs => if p = c then dropPre ps cs else none
  | _ :: _, [] => none

/-- Value of a hex digit character, if it is one. -/
def hexVal (c : Nat) : Option Nat :=
  if 48 ≤ c ∧ c ≤ 57 then some (c - 48)
  else if 97 ≤ c ∧ c ≤ 102 then some (c - 87)
  else if 65 ≤ c ∧ c ≤ 70 then some (c - 55)
  else none

/-- Maximal run of ASCII digits and the remainder. -/
def takeDigits : List Nat → List Nat × List Nat
  | [] => ([], [])
  | c :: cs =>
    if isDigitCp c then
      let p := takeDigits cs
      (c :: p.1, p.2)
    else ([], c :: cs)

/-- Numeric value of a digit run. -/
def digitsVal (ds : List Nat) : Nat := ds.foldl (fun a c => a * 10 + (c - 48)) 0

/-- Would the next character extend the number into a float
(fraction dot or exponent)?  `json.loads` would then produce a float,
which is outside the embedded fragment. -/
def numCont : List Nat → Bool
  | c :: _ => c = 46 || c = 101 || c = 69
  | [] => false

/-- Body of a JSON string after the opening quote: plain characters,
escapes, and `\uXXXX`; strict mode rejects raw control characters. -/
def parseStringBody : List Nat → Option (PyStr × List Nat)
  | [] => none
  | c :: rest =>
    if c = 34 then some ([], rest)
    else if c = 92 then
      match rest with
      | [] => none
      | e :: rest2 =>
        if e = 34 ∨ e = 92 ∨ e = 47 then
          (parseStringBody rest2).map (fun p => (e :: p.1, p.2))
        else if e = 98 then (parseStringBody rest2).map (fun p => (8 :: p.1, p.2))
        else if e = 102 then (parseStringBody rest2).map (fun p => (12 :: p.1, p.2))
        else if e = 110 then (parseStringBody rest2).map (fun p => (10 :: p.1, p.2))
        else if e = 114 then (parseStringBody rest2).map (fun p => (13 :: p.1, p.2))
        else if e = 116 then (parseStringBody rest2).map (fun p => (9 :: p.1, p.2))
        else if e = 117 then
          match rest2 with
          | h1 :: h2 :: h3 :: h4 :: rest3 =>
            match hexVal h1, hexVal h2, hexVal h3, hexVal h4 with
            | some a, some b, some c2, some d =>
              (parseStringBody rest3).map
                (fun p => ((a * 4096 + b * 256 + c2 * 16 + d) :: p.1, p.2))
            | _, _, _, _ => none
          | _ => none
        else none
    else if c < 32 then none
    else (parseStringBody rest).map (fun p => (c :: p.1, p.2))

/-- Insert a binding into an object spine with Python `dict` semantics:
an existing key keeps its position and takes the new value, a new key is
appended at the end. -/
def dictInsert (key : PyStr) (v : Json) : Json → Json
  | .objCons k w tl =>
    if k = key then .objCons k v tl else .objCons k w (dictInsert key v tl)
  | .objNil => .objCons key v .objNil
  | j => j

/-- Fold a raw member spine into a dict, left to right (`dict(pairs)`). -/
def dictAddAll : Json → Json → Json
  | acc, .objCons k v tl => dictAddAll (dictInsert k v acc) tl
  | acc, _ => acc

/-- Collapse duplicate keys the way building a Python `dict` does. -/
def dictify (ms : Json) : Json := dictAddAll .objNil ms

mutual

/-- One JSON value.  Dispatch is on the first character, as in the
`json.scanner` pure-Python scanner. -/
def parseValue : Nat → List Nat → Option (Json × List Nat)
  | 0, _ => none
  | f + 1, cs =>
    match cs with
    | [] => none
    | c :: r =>
      if c = 110 then
        match dropPre [117, 108, 108] r with
        | some r2 => some (.null, r2)
        | none => none
      else if c = 116 then
        match dropPre [114, 117, 101] r with
        | some r2 => some (.bool true, r2)
        | none => none
      else if c = 102 then
        match dropPre [97, 108, 115, 101] r with
        | some r2 => some (.bool false, r2)
        | none => none
      else if c = 34 then
        match parseStringBody r with
        | some p => some (.str p.1, p.2)
        | none => none
      else if c = 91 then
        match skipWs r with
        | [] => none
        | c2 :: r2 => if c2 = 93 then some (.arrNil, r2) else parseItems f (c2 :: r2)
      else if c = 123 then
        match skipWs r with
        | [] => none
        | c2 :: r2 =>
          if c2 = 125 then some (.objNil, r2)
          else
            match parseMembers f (c2 :: r2) with
            | some p => some (dictify p.1, p.2)
            | none => none
      else if c = 45 then
        match takeDigits r with
        | (ds, r2) =>
          if ds = [] then none
          else if numCont r2 then none
          else some (.num (-(digitsVal ds : Int)), r2)
      else if isDigitCp c then
        match takeDigits (c :: r) with
        | (ds, r2) =>
          if numCont r2 then none else some (.num ((digitsVal ds : Nat) : Int), r2)
      else none

/-- One or more comma-separated array elements, then `]`. -/
def parseItems : Nat → List Nat → Option (Json × List Nat)
  | 0, _ => none
  | f + 1, cs =>
    match parseValue f cs with
    | none => none
    | some (v, r) =>
      match skipWs r with
      | [] => none
      | c :: r2 =>
        if c = 44 then
          match parseItems f (skipWs r2) with
          | some p => some (.arrCons v p.1, p.2)
          | none => none
        else if c = 93 then some (.arrCons v .arrNil, r2)
        else none

/-- One or more `"key": value` members, then the closing brace.  The raw
spine is returned; `parseValue` applies `dictify`. -/
def parseMembers : Nat → List Nat → Option (Json × List Nat)
  | 0, _ => none
  | f + 1, cs =>
    match cs with
    | [] => none
    | c :: r =>
      if c = 34 then
        match parseStringBody r with
        | none => none
        | some (k, r1) =>
          match skipWs r1 with
          | [] => none
          | c2 :: r2 =>
            if c2 = 58 then
              match parseValue f (skipWs r2) with
              | none => none
              | some (v, r3) =>
                match skipWs r3 with
                | [] => none
                | c3 :: r4 =>
                  if c3 = 44 then
                    match parseMembers f (skipWs r4) with
                    | some p => some (.objCons k v p.1, p.2)
                    | none => none
                  else if c3 = 125 then some (.objCons k v .objNil, r4)
                  else none
            else none
      else none

end

/-- `json.loads` on a decoded text: skip leading whitespace, parse one
value, require only whitespace after it.  The fuel bound covers any
nesting an input of this length can express. -/
def json_loads (cps : List Nat) : Option Json :=
  let cs := skipWs cps
  match parseValue (2 * cs.length + 2) cs with
  | some (j, r) => if skipWs r = [] then some j else none
  | none => none

/-! ## Round-trip of the serializer and the scanner

`json_loads (jsonDumps j) = some j` for every well-formed value.  The
development follows the usual shape for verified recursive-descent
parsers: digit lemmas, an escape-inverse lemma for strings, a
head-character lemma making `skipWs` transparent on rendered output, and
one structural induction tying the three parsing functions together. -/

theorem natDecAux_digits : ∀ (f n : Nat), ∀ c ∈ natDecAux f n, isDigitCp c = true := by
  intro f
  induction f with
  | zero => intro n c hc; simp [natDecAux] at hc
  | succ f ih =>
    intro n c hc
    by_cases h : n < 10
    · simp [natDecAux, h] at hc
      simp [hc, isDigitCp] <;> omega
    · simp [natDecAux, h] at hc
      rcases hc with hc | hc
      · exact ih _ c hc
      · simp [hc, isDigitCp] <;> omega

theorem natDecAux_ne_nil (f n : Nat) (hf : 0 < f) : natDecAux f n ≠ [] := by
  cases f with
  | zero => omega
  | succ f =>
    by_cases h : n < 10 <;> simp [natDecAux, h]

theorem digitsVal_append_digit (ds : List Nat) (d : Nat) :
    digitsVal (ds ++ [d]) = digitsVal ds * 10 + (d - 48) := by
  simp [digitsVal, List.foldl_append]

theorem natDecAux_val : ∀ (f n : Nat), n < f → digitsVal (natDecAux f n) = n := by
  intro f
  induction f with
  | zero => intro n h; omega
  | succ f ih =>
    intro n h
    by_cases h10 : n < 10
    · simp [natDecAux, h10, digitsVal] <;> omega
    · have hrec : n / 10 < f := by omega
      simp only [natDecAux, if_neg h10, digitsVal_append_digit, ih _ hrec]
      omega

theorem natDec_digits (n : Nat) : ∀ c ∈ natDec n, isDigitCp c = true :=
  natDecAux_digits (n + 1) n

theorem natDec_val (n : Nat) : digitsVal (natDec n) = n :=
  natDecAux_val (n + 1) n (by omega)

theorem natDec_cons (n : Nat) : ∃ c t, natDec n = c :: t ∧ isDigitCp c = true := by
  have hne := natDecAux_ne_nil (n + 1) n (by omega)
  rcases hl : natDec n with _ | ⟨c, t⟩
  · exact absurd hl hne
  · exact ⟨c, t, rfl, natDec_digits n c (hl ▸ List.mem_cons_self c t)⟩

/-- Head-shape test used by `takeDigits` lemmas. -/
def headDigit : List Nat → Bool
  | c :: _ => isDigitCp c
  | [] => false

theorem takeDigits_exact : ∀ (ds rest : List Nat), (∀ c ∈ ds, isDigitCp c = true) →
    headDigit rest = false → takeDigits (ds ++ rest) = (ds, rest) := by
  intro ds
  induction ds with
  | nil =>
    intro rest _ hrest
    cases rest with
    | nil => rfl
    | cons c t => simp [headDigit] at hrest; simp [takeDigits, hrest]
  | cons c ds ih =>
    intro rest hds hrest
    have hc : isDigitCp c = true := hds c (List.mem_cons_self c ds)
    simp only [List.cons_append, takeDigits, hc, if_pos, List.append_eq]
    rw [ih rest (fun x hx => hds x (List.mem_cons_of_mem c hx)) hrest]

/-- A remainder that cannot extend a rendered number: empty or opening
with a separator/closer.  Everything `jsonDumps` puts after a value
satisfies it, as does the empty top-level remainder. -/
def numDelim : List Nat → Bool
  | [] => true
  | c :: _ => c = 44 || c = 93 || c = 125

theorem numDelim_headDigit {rest : List Nat} (h : numDelim rest = true) :
    headDigit rest = false := by
  cases rest with
  | nil => rfl
  | cons c t =>
    simp [numDelim] at h
    rcases h with (h | h) | h <;> simp [headDigit, h, isDigitCp]

theorem numDelim_numCont {rest : List Nat} (h : numDelim rest = true) :
    numCont rest = false := by
  cases rest with
  | nil => rfl
  | cons c t =>
    simp [numDelim] at h
    rcases h with (h | h) | h <;> simp [numCont, h]

theorem hexVal_hexDigitL (n : Nat) (h : n < 16) : hexVal (hexDigitL n) = some n := by
  by_cases h10 : n < 10
  · have h1 : 48 ≤ 48 + n ∧ 48 + n ≤ 57 := by omega
    simp [hexDigitL, hexVal, h10, h1] <;> omega
  · have h1 : ¬(48 ≤ 87 + n ∧ 87 + n ≤ 57) := by omega
    have h2 : 97 ≤ 87 + n ∧ 87 + n ≤ 102 := by omega
    simp [hexDigitL, hexVal, h10, h1, h2] <;> omega

theorem escChar_step (c : Nat) (cs : List Nat) :
    parseStringBody (escChar c ++ cs) =
      (parseStringBody cs).map (fun p => (c :: p.1, p.2)) := by
  by_cases h34 : c = 34
  · subst h34; rw [show escChar 34 ++ cs = 92 :: 34 :: cs from rfl, parseStringBody.eq_def]; simp
  by_cases h92 : c = 92
  · subst h92; rw [show escChar 92 ++ cs = 92 :: 92 :: cs from rfl, parseStringBody.eq_def]; simp
  by_cases h8 : c = 8
  · subst h8; rw [show escChar 8 ++ cs = 92 :: 98 :: cs from rfl, parseStringBody.eq_def]; simp
  by_cases h12 : c = 12
  · subst h12; rw [show escChar 12 ++ cs = 92 :: 102 :: cs from rfl, parseStringBody.eq_def]; simp
  by_cases h10 : c = 10
  · subst h10; rw [show escChar 10 ++ cs = 92 :: 110 :: cs from rfl, parseStringBody.eq_def]; simp
  by_cases h13 : c = 13
  · subst h13; rw [show escChar 13 ++ cs = 92 :: 114 :: cs from rfl, parseStringBody.eq_def]; simp
  by_cases h9 : c = 9
  · subst h9; rw [show escChar 9 ++ cs = 92 :: 116 :: cs from rfl, parseStringBody.eq_def]; simp
  by_cases hc32 : c < 32
  · have hd1 : c / 16 < 16 := by omega
    have hd2 : c % 16 < 16 := by omega
    have hesc : escChar c ++ cs
        = 92 :: 117 :: 48 :: 48 :: hexDigitL (c / 16) :: hexDigitL (c % 16) :: cs := by
      simp [escChar, h34, h92, h8, h12, h10, h13, h9, hc32]
    have harith : c / 16 * 16 + c % 16 = c := by omega
    rw [hesc, parseStringBody.eq_def]
    simp [hexVal_hexDigitL _ hd1, hexVal_hexDigitL _ hd2,
      show hexVal 48 = some 0 from by decide, harith]
  · have hesc : escChar c ++ cs = c :: cs := by
      simp [escChar, h34, h92, h8, h12, h10, h13, h9, hc32]
    rw [hesc, parseStringBody.eq_def]
    simp only []
    rw [if_neg h34, if_neg h92, if_neg hc32]

theorem parseStringBody_escAll : ∀ (s : PyStr) (rest : List Nat),
    parseStringBody (s.flatMap escChar ++ (34 :: rest)) = some (s, rest) := by
  intro s
  induction s with
  | nil =>
    intro rest
    rw [List.flatMap_nil, List.nil_append, parseStringBody.eq_def]
    simp
  | cons c s ih =>
    intro rest
    rw [List.flatMap_cons, List.append_assoc, escChar_step, ih]
    rfl

theorem skipWs_cons_notWs {c : Nat} (t : List Nat) (h : isJWs c = false) :
    skipWs (c :: t) = c :: t := by
  simp [skipWs, List.dropWhile_cons, h]

theorem skipWs_cons32 (t : List Nat) : skipWs (32 :: t) = skipWs t := by
  simp [skipWs, List.dropWhile_cons, show isJWs 32 = true from rfl]

/-- Every rendered value opens with a character that is not whitespace,
not a closer, and not a comma — so `skipWs` is transparent on it and the
scanner's separator tests cannot mistake it. -/
theorem jsonDumps_head (j : Json) :
    ∃ c t, jsonDumps j = c :: t ∧ isJWs c = false ∧ c ≠ 93 ∧ c ≠ 125 ∧ c ≠ 44 := by
  cases j with
  | null => exact ⟨110, _, rfl, by decide, by decide, by decide, by decide⟩
  | bool b =>
    cases b with
    | true => exact ⟨116, _, rfl, by decide, by decide, by decide, by decide⟩
    | false => exact ⟨102, _, rfl, by decide, by decide, by decide, by decide⟩
  | num i =>
    by_cases hneg : i < 0
    · refine ⟨45, natDec i.natAbs, ?_, by decide, by decide, by decide, by decide⟩
      simp [jsonDumps, intDec, hneg]
    · obtain ⟨c, t, hct, hdig⟩ := natDec_cons i.natAbs
      have hrange : 48 ≤ c ∧ c ≤ 57 := by simpa [isDigitCp] using hdig
      refine ⟨c, t, ?_, ?_, ?_, ?_, ?_⟩
      · simp [jsonDumps, intDec, hneg, hct]
      · simp [isJWs]; omega
      · omega
      · omega
      · omega
  | str s => exact ⟨34, _, rfl, by decide, by decide, by decide, by decide⟩
  | arrNil => exact ⟨91, _, rfl, by decide, by decide, by decide, by decide⟩
  | arrCons hd tl => exact ⟨91, _, rfl, by decide, by decide, by decide, by decide⟩
  | objNil => exact ⟨123, _, rfl, by decide, by decide, by decide, by decide⟩
  | objCons k v tl => exact ⟨123, _, rfl, by decide, by decide, by decide, by decide⟩

theorem jsonDumps_len_pos (j : Json) : 1 ≤ (jsonDumps j).length := by
  obtain ⟨c, t, h, -⟩ := jsonDumps_head j
  simp [h]

theorem skipWs_jsonDumps (j : Json) (x : List Nat) :
    skipWs (jsonDumps j ++ x) = jsonDumps j ++ x := by
  obtain ⟨c, t, h, hws, -⟩ := jsonDumps_head j
  rw [h, List.cons_append, skipWs_cons_notWs _ hws]

/-! ### Building a `dict` from parsed members

`json.loads` materialises an object as `dict(pairs)`; on a member list
with pairwise-distinct keys that is the identity.  The lemmas below prove
it, by reasoning about appending to the accumulator. -/

/-- The whole spine is a well-shaped object (every tail is one too). -/
def objSpine : Json → Bool
  | .objNil => true
  | .objCons _ _ tl => objSpine tl
  | _ => false

/-- Append two object spines. -/
def objAppend : Json → Json → Json
  | .objCons k v tl, ms => .objCons k v (objAppend tl ms)
  | _, ms => ms

theorem objAppend_nil_right : ∀ a, objSpine a = true → objAppend a .objNil = a := by
  intro a
  induction a with
  | objNil => intro _; rfl
  | objCons k v tl ihv ihtl => intro h; simp only [objSpine] at h; simp [objAppend, ihtl h]
  | _ => intro h; simp [objSpine] at h

theorem objSpine_append : ∀ a b, objSpine a = true → objSpine b = true →
    objSpine (objAppend a b) = true := by
  intro a
  induction a with
  | objNil => intro b _ hb; simpa [objAppend] using hb
  | objCons k v tl ihv ihtl =>
    intro b ha hb
    simp only [objSpine] at ha
    simp [objAppend, objSpine, ihtl b ha hb]
  | _ => intro b ha _; simp [objSpine] at ha

theorem objHasKey_append : ∀ a b key, objSpine a = true →
    objHasKey (objAppend a b) key = (objHasKey a key || objHasKey b key) := by
  intro a
  induction a with
  | objNil => intro b key _; simp [objAppend, objHasKey]
  | objCons k v tl ihv ihtl =>
    intro b key ha
    simp only [objSpine] at ha
    simp [objAppend, objHasKey, ihtl b key ha, Bool.or_assoc]
  | _ => intro b key ha; simp [objSpine] at ha

theorem dictInsert_absent : ∀ a key v, objSpine a = true → objHasKey a key = false →
    dictInsert key v a = objAppend a (.objCons key v .objNil) := by
  intro a
  induction a with
  | objNil => intro key v _ _; rfl
  | objCons k w tl ihv ihtl =>
    intro key v ha hk
    simp only [objSpine] at ha
    simp only [objHasKey, Bool.or_eq_false_iff, decide_eq_false_iff_not] at hk
    simp [dictInsert, objAppend, hk.1, ihtl key v ha hk.2]
  | _ => intro key v ha _; simp [objSpine] at ha

theorem objAppend_assoc : ∀ a b c, objSpine a = true →
    objAppend (objAppend a b) c = objAppend a (objAppend b c) := by
  intro a
  induction a with
  | objNil => intro b c _; rfl
  | objCons k v tl ihv ihtl =>
    intro b c ha
    simp only [objSpine] at ha
    simp [objAppend, ihtl b c ha]
  | _ => intro b c ha; simp [objSpine] at ha

theorem jsonWF_objCons {k : PyStr} {v tl : Json} (h : jsonWF (.objCons k v tl) = true) :
    jsonWF v = true ∧ isObjShape tl = true ∧ jsonWF tl = true ∧ objHasKey tl k = false := by
  simp only [jsonWF, Bool.and_eq_true, Bool.not_eq_true'] at h
  exact ⟨h.1.1.1, h.1.1.2, h.1.2, h.2⟩

theorem jsonWF_objSpine : ∀ j, isObjShape j = true → jsonWF j = true →
    objSpine j = true := by
  intro j
  induction j with
  | objNil => intro _ _; rfl
  | objCons k v tl ihv ihtl =>
    intro _ hwf
    obtain ⟨-, hsh, hwtl, -⟩ := jsonWF_objCons hwf
    simp [objSpine, ihtl hsh hwtl]
  | _ => intro h _ <;> simp [isObjShape] at h

theorem dictAddAll_eq : ∀ ms acc, isObjShape ms = true → jsonWF ms = true →
    objSpine acc = true →
    (∀ key, objHasKey ms key = true → objHasKey acc key = false) →
    dictAddAll acc ms = objAppend acc ms := by
  intro ms
  induction ms with
  | objNil =>
    intro acc _ _ hacc _
    rw [show dictAddAll acc .objNil = acc from rfl, objAppend_nil_right acc hacc]
  | objCons k v tl ihv ihtl =>
    intro acc _ hwf hacc hdisj
    obtain ⟨-, hshtl, hwftl, hktl⟩ := jsonWF_objCons hwf
    have hk : objHasKey acc k = false := hdisj k (by simp [objHasKey])
    rw [show dictAddAll acc (.objCons k v tl) = dictAddAll (dictInsert k v acc) tl from rfl,
      dictInsert_absent acc k v hacc hk]
    have hsingle : objSpine (.objCons k v .objNil) = true := rfl
    have hdisj' : ∀ key, objHasKey tl key = true →
        objHasKey (objAppend acc (.objCons k v .objNil)) key = false := by
      intro key hkey
      rw [objHasKey_append acc _ key hacc]
      have h1 : objHasKey acc key = false := hdisj key (by simp [objHasKey, hkey])
      have h2 : ¬(k = key) := by
        intro hkk
        subst hkk
        rw [hkey] at hktl
        simp at hktl
      simp [h1, objHasKey, h2]
    rw [ihtl (objAppend acc (.objCons k v .objNil)) hshtl hwftl
        (objSpine_append acc _ hacc hsingle) hdisj',
      objAppend_assoc acc _ tl hacc]
    rfl
  | _ => intro acc h _ _ _ <;> simp [isObjShape] at h

theorem dictify_wf {ms : Json} (hsh : isObjShape ms = true) (hwf : jsonWF ms = true) :
    dictify ms = ms := by
  have h := dictAddAll_eq ms .objNil hsh hwf rfl (by intro key _; rfl)
  rw [dictify, h]
  rfl

/-! ### The main induction -/

theorem jsonWF_arrCons {hd tl : Json} (h : jsonWF (.arrCons hd tl) = true) :
    jsonWF hd = true ∧ isArrShape tl = true ∧ jsonWF tl = true := by
  simp only [jsonWF, Bool.and_eq_true] at h
  exact ⟨h.1.1, h.1.2, h.2⟩

theorem encodeStr_len_ge (s : PyStr) : 2 ≤ (encodeStr s).length := by
  simp [encodeStr]

/-- Round-trip statement for one value: the scanner inverts the
serializer whatever follows, provided the remainder cannot extend a
number and the fuel exceeds the rendered length. -/
def RTv (j : Json) : Prop :=
  ∀ f rest, jsonWF j = true → numDelim rest = true →
    (jsonDumps j).length < f → parseValue f (jsonDumps j ++ rest) = some (j, rest)

/-- Round-trip statement for a non-empty element list. -/
def RTi (j : Json) : Prop :=
  ∀ hd tl, j = .arrCons hd tl → ∀ f rest, jsonWF j = true →
    (jsonDumps hd).length + (dumpItems tl).length + 1 < f →
    parseItems f (jsonDumps hd ++ (dumpItems tl ++ (93 :: rest)))
      = some (.arrCons hd tl, rest)

/-- Round-trip statement for a non-empty member list. -/
def RTm (j : Json) : Prop :=
  ∀ k v tl, j = .objCons k v tl → ∀ f rest, jsonWF j = true →
    (encodeStr k).length + (jsonDumps v).length + (dumpMembers tl).length + 3 < f →
    parseMembers f
        (encodeStr k ++ (58 :: 32 :: (jsonDumps v ++ (dumpMembers tl ++ (125 :: rest)))))
      = some (.objCons k v tl, rest)

theorem skipWs_encodeStr (s : PyStr) (x : List Nat) :
    skipWs (encodeStr s ++ x) = encodeStr s ++ x := by
  rw [show encodeStr s ++ x = 34 :: ((s.flatMap escChar ++ [34]) ++ x) from rfl]
  exact skipWs_cons_notWs _ (by decide)

theorem rt_all : ∀ j : Json, RTv j ∧ RTi j ∧ RTm j := by
  intro j
  induction j with
  | null =>
    refine ⟨?_, fun hd tl h => Json.noConfusion h, fun k v tl h => Json.noConfusion h⟩
    intro f rest _ _ hflen
    cases f with
    | zero => simp [jsonDumps] at hflen
    | succ f =>
      rw [show jsonDumps .null ++ rest = 110 :: 117 :: 108 :: 108 :: rest from rfl,
        parseValue.eq_def]
      simp [dropPre]
  | bool b =>
    refine ⟨?_, fun hd tl h => Json.noConfusion h, fun k v tl h => Json.noConfusion h⟩
    intro f rest _ _ hflen
    cases f with
    | zero => cases b <;> simp [jsonDumps] at hflen
    | succ f =>
      cases b with
      | true =>
        rw [show jsonDumps (.bool true) ++ rest = 116 :: 114 :: 117 :: 101 :: rest from rfl,
          parseValue.eq_def]
        simp [dropPre]
      | false =>
        rw [show jsonDumps (.bool false) ++ rest
            = 102 :: 97 :: 108 :: 115 :: 101 :: rest from rfl, parseValue.eq_def]
        simp [dropPre]
  | num i =>
    refine ⟨?_, fun hd tl h => Json.noConfusion h, fun k v tl h => Json.noConfusion h⟩
    intro f rest _ hdelim hflen
    have hne : natDec i.natAbs ≠ [] := natDecAux_ne_nil _ _ (by omega)
    have htd := takeDigits_exact (natDec i.natAbs) rest (natDec_digits _)
      (numDelim_headDigit hdelim)
    by_cases hneg : i < 0
    · have hdump : jsonDumps (.num i) = 45 :: natDec i.natAbs := by
        simp [jsonDumps, intDec, hneg]
      rw [hdump] at hflen ⊢
      cases f with
      | zero => simp at hflen
      | succ f =>
        have habs : ((i.natAbs : Nat) : Int) = -i := Int.ofNat_natAbs_of_nonpos (by omega)
        rw [List.cons_append, parseValue.eq_def]
        simp [htd, hne, numDelim_numCont hdelim, natDec_val, habs]
    · obtain ⟨c0, t0, hct, hdig⟩ := natDec_cons i.natAbs
      have hr : 48 ≤ c0 ∧ c0 ≤ 57 := by simpa [isDigitCp] using hdig
      have hdump : jsonDumps (.num i) = natDec i.natAbs := by
        simp [jsonDumps, intDec, hneg]
      rw [hdump] at hflen ⊢
      cases f with
      | zero => omega
      | succ f =>
        have habs : ((i.natAbs : Nat) : Int) = i := Int.natAbs_of_nonneg (by omega)
        have h110 : ¬c0 = 110 := by omega
        have h116 : ¬c0 = 116 := by omega
        have h102 : ¬c0 = 102 := by omega
        have h34 : ¬c0 = 34 := by omega
        have h91 : ¬c0 = 91 := by omega
        have h123 : ¬c0 = 123 := by omega
        have h45 : ¬c0 = 45 := by omega
        rw [hct, List.cons_append, parseValue.eq_def]
        simp only []
        rw [if_neg h110, if_neg h116, if_neg h102, if_neg h34, if_neg h91, if_neg h123,
          if_neg h45, if_pos hdig]
        rw [show c0 :: (t0 ++ rest) = natDec i.natAbs ++ rest from by rw [hct]; simp]
        rw [htd]
        simp [hne, numDelim_numCont hdelim, natDec_val, habs]
  | str s =>
    refine ⟨?_, fun hd tl h => Json.noConfusion h, fun k v tl h => Json.noConfusion h⟩
    intro f rest _ _ hflen
    cases f with
    | zero => simp [jsonDumps, encodeStr] at hflen
    | succ f =>
      rw [show jsonDumps (.str s) ++ rest = 34 :: (s.flatMap escChar ++ (34 :: rest)) from by
          simp [jsonDumps, encodeStr], parseValue.eq_def]
      simp [parseStringBody_escAll]
  | arrNil =>
    refine ⟨?_, fun hd tl h => Json.noConfusion h, fun k v tl h => Json.noConfusion h⟩
    intro f rest _ _ hflen
    cases f with
    | zero => simp [jsonDumps] at hflen
    | succ f =>
      rw [show jsonDumps .arrNil ++ rest = 91 :: 93 :: rest from rfl, parseValue.eq_def]
      simp [skipWs_cons_notWs _ (show isJWs 93 = false from rfl)]
  | objNil =>
    refine ⟨?_, fun hd tl h => Json.noConfusion h, fun k v tl h => Json.noConfusion h⟩
    intro f rest _ _ hflen
    cases f with
    | zero => simp [jsonDumps] at hflen
    | succ f =>
      rw [show jsonDumps .objNil ++ rest = 123 :: 125 :: rest from rfl, parseValue.eq_def]
      simp [skipWs_cons_notWs _ (show isJWs 125 = false from rfl)]
  | arrCons hd tl ihhd ihtl =>
    have hitems : ∀ f rest, jsonWF (.arrCons hd tl) = true →
        (jsonDumps hd).length + (dumpItems tl).length + 1 < f →
        parseItems f (jsonDumps hd ++ (dumpItems tl ++ (93 :: rest)))
          = some (.arrCons hd tl, rest) := by
      intro f rest hwf hflen
      obtain ⟨hwfhd, hshtl, hwftl⟩ := jsonWF_arrCons hwf
      have hhd1 := jsonDumps_len_pos hd
      cases f with
      | zero => omega
      | succ f =>
        rw [parseItems.eq_def]
        cases tl with
        | arrNil =>
          have hval := ihhd.1 f (93 :: rest) hwfhd (by simp [numDelim]) (by
            simp only [dumpItems, List.length_nil] at hflen; omega)
          rw [show jsonDumps hd ++ (dumpItems .arrNil ++ (93 :: rest))
              = jsonDumps hd ++ (93 :: rest) from by simp [dumpItems]]
          simp [hval, skipWs_cons_notWs _ (show isJWs 93 = false from rfl)]
        | arrCons hd2 tl2 =>
          have hlen2 : (jsonDumps hd2).length + (dumpItems tl2).length + 1 < f := by
            simp only [dumpItems, List.length_append, List.length_cons,
              List.length_nil] at hflen
            omega
          have hval := ihhd.1 f
            (44 :: (32 :: (jsonDumps hd2 ++ (dumpItems tl2 ++ (93 :: rest)))))
            hwfhd (by simp [numDelim]) (by omega)
          have hrec := ihtl.2.1 hd2 tl2 rfl f rest (jsonWF_arrCons hwf).2.2 hlen2
          rw [show jsonDumps hd ++ (dumpItems (.arrCons hd2 tl2) ++ (93 :: rest))
              = jsonDumps hd
                ++ (44 :: (32 :: (jsonDumps hd2 ++ (dumpItems tl2 ++ (93 :: rest)))))
              from by simp [dumpItems]]
          simp [hval, skipWs_cons_notWs _ (show isJWs 44 = false from rfl),
            skipWs_cons32, skipWs_jsonDumps hd2, hrec]
        | _ => simp [isArrShape] at hshtl
    refine ⟨?_, ?_, fun k v tl' heq => Json.noConfusion heq⟩
    · intro f rest hwf hdelim hflen
      have hlen : (jsonDumps (.arrCons hd tl)).length
          = (jsonDumps hd).length + (dumpItems tl).length + 2 := by
        simp only [jsonDumps, List.length_cons, List.length_append, List.length_nil]
      cases f with
      | zero => omega
      | succ f =>
        obtain ⟨c0, t0, hct, hcws, hc93, -, -⟩ := jsonDumps_head hd
        have hi := hitems f rest hwf (by omega)
        rw [hct] at hi
        rw [show jsonDumps (.arrCons hd tl) ++ rest
            = 91 :: (jsonDumps hd ++ (dumpItems tl ++ (93 :: rest))) from by
            simp [jsonDumps], parseValue.eq_def, hct]
        simp only [List.cons_append, List.append_assoc] at hi ⊢
        simp [skipWs_cons_notWs _ hcws, hc93, hi]
    · intro hd' tl' heq
      cases heq
      intro f rest hwf hflen
      exact hitems f rest hwf hflen
  | objCons k v tl ihv ihtl =>
    have hmembers : ∀ f rest, jsonWF (.objCons k v tl) = true →
        (encodeStr k).length + (jsonDumps v).length + (dumpMembers tl).length + 3 < f →
        parseMembers f
            (encodeStr k ++ (58 :: 32 :: (jsonDumps v ++ (dumpMembers tl ++ (125 :: rest)))))
          = some (.objCons k v tl, rest) := by
      intro f rest hwf hflen
      obtain ⟨hwfv, hshtl, hwftl, -⟩ := jsonWF_objCons hwf
      have hv1 := jsonDumps_len_pos v
      have hk2 := encodeStr_len_ge k
      cases f with
      | zero => omega
      | succ f =>
        rw [show encodeStr k ++ (58 :: 32 :: (jsonDumps v ++ (dumpMembers tl ++ (125 :: rest))))
            = 34 :: (k.flatMap escChar
              ++ (34 :: (58 :: 32 :: (jsonDumps v ++ (dumpMembers tl ++ (125 :: rest))))))
            from by simp [encodeStr], parseMembers.eq_def]
        cases tl with
        | objNil =>
          have hval := ihv.1 f (125 :: rest) hwfv (by simp [numDelim]) (by omega)
          rw [show jsonDumps v ++ (dumpMembers .objNil ++ (125 :: rest))
              = jsonDumps v ++ (125 :: rest) from by simp [dumpMembers]]
          simp [parseStringBody_escAll, hval,
            skipWs_cons_notWs _ (show isJWs 58 = false from rfl), skipWs_cons32,
            skipWs_jsonDumps v, skipWs_cons_notWs _ (show isJWs 125 = false from rfl)]
        | objCons k2 v2 tl2 =>
          have hk22 := encodeStr_len_ge k2
          have hv21 := jsonDumps_len_pos v2
          have hlen2 : (encodeStr k2).length + (jsonDumps v2).length
              + (dumpMembers tl2).length + 3 < f := by
            simp only [dumpMembers, List.length_append, List.length_cons,
              List.length_nil] at hflen
            omega
          have hval := ihv.1 f
            (44 :: (32 :: (encodeStr k2
              ++ (58 :: 32 :: (jsonDumps v2 ++ (dumpMembers tl2 ++ (125 :: rest)))))))
            hwfv (by simp [numDelim]) (by omega)
          have hrec := ihtl.2.2 k2 v2 tl2 rfl f rest (jsonWF_objCons hwf).2.2.1 hlen2
          rw [show jsonDumps v ++ (dumpMembers (.objCons k2 v2 tl2) ++ (125 :: rest))
              = jsonDumps v ++ (44 :: (32 :: (encodeStr k2
                ++ (58 :: 32 :: (jsonDumps v2 ++ (dumpMembers tl2 ++ (125 :: rest)))))))
              from by simp [dumpMembers]]
          simp only [List.cons_append, List.append_assoc] at hval hrec ⊢
          simp [parseStringBody_escAll, hval, hrec,
            skipWs_cons_notWs _ (show isJWs 58 = false from rfl), skipWs_cons32,
            skipWs_jsonDumps v, skipWs_cons_notWs _ (show isJWs 44 = false from rfl),
            skipWs_encodeStr]
        | _ => simp [isObjShape] at hshtl
    refine ⟨?_, fun hd' tl' heq => Json.noConfusion heq, ?_⟩
    · intro f rest hwf hdelim hflen
      have hk2 := encodeStr_len_ge k
      have hlen : (jsonDumps (.objCons k v tl)).length
          = (encodeStr k).length + (jsonDumps v).length + (dumpMembers tl).length + 4 := by
        simp only [jsonDumps, List.length_cons, List.length_append, List.length_nil]
        omega
      cases f with
      | zero => omega
      | succ f =>
        have hm := hmembers f rest hwf (by omega)
        have hdict : dictify (.objCons k v tl) = .objCons k v tl := dictify_wf rfl hwf
        rw [show jsonDumps (.objCons k v tl) ++ rest
            = 123 :: (encodeStr k
              ++ (58 :: 32 :: (jsonDumps v ++ (dumpMembers tl ++ (125 :: rest))))) from by
            simp [jsonDumps], parseValue.eq_def]
        rw [show encodeStr k ++ (58 :: 32 :: (jsonDumps v ++ (dumpMembers tl ++ (125 :: rest))))
            = 34 :: (k.flatMap escChar ++ (34 :: (58 :: 32 :: (jsonDumps v
              ++ (dumpMembers tl ++ (125 :: rest)))))) from by simp [encodeStr]] at hm ⊢
        simp only [List.cons_append, List.append_assoc] at hm ⊢
        simp [skipWs_cons_notWs _ (show isJWs 34 = false from rfl), hm, hdict]
    · intro k' v' tl' heq
      cases heq
      intro f rest hwf hflen
      exact hmembers f rest hwf hflen

/-- The serializer/scanner round-trip: `json.loads(json.dumps(payload))`
recovers every well-formed payload exactly. -/
theorem json_loads_dumps {j : Json} (hwf : jsonWF j = true) :
    json_loads (jsonDumps j) = some j := by
  have h := (rt_all j).1 (2 * (jsonDumps j).length + 2) [] hwf rfl (by omega)
  rw [List.append_nil] at h
  have hsk : skipWs (jsonDumps j) = jsonDumps j := by
    have := skipWs_jsonDumps j []
    simpa using this
  simp only [json_loads, hsk, h]
  rfl

/-! ## UTF-8

`str.encode('utf-8')` and `bytes.decode('utf-8')` on code-point lists.
The decoder models CPython's strict decoder: it rejects stray
continuation bytes, overlong forms, surrogates and values past 0x10FFFF. -/

/-- UTF-8 bytes of one code point (total; callers guard validity with
`vsc`, as `str.encode` raises on surrogates). -/
def utf8Char (n : Nat) : List Nat :=
  if n < 128 then [n]
  else if n < 2048 then [192 + n / 64, 128 + n % 64]
  else if n < 65536 then [224 + n / 4096, 128 + n / 64 % 64, 128 + n % 64]
  else [240 + n / 262144, 128 + n / 4096 % 64, 128 + n / 64 % 64, 128 + n % 64]

/-- `str.encode('utf-8')` modulo the validity guard. -/
def utf8EncodeList (cps : List Nat) : List Nat := cps.flatMap utf8Char

/-! `utf8Decode` models `bytes.decode('utf-8')` (strict, the default used
by `protocol.py`).  The helpers consume the continuation bytes of a 2-,
3- or 4-byte sequence headed by `b`. -/

mutual

def utf8Decode : List Nat → Option (List Nat)
  | [] => some []
  | b :: bs =>
    if b < 128 then (utf8Decode bs).map (b :: ·)
    else if b < 194 then none
    else if b < 224 then utf8Tail1 b bs
    else if b < 240 then utf8Tail2 b bs
    else if b < 245 then utf8Tail3 b bs
    else none

def utf8Tail1 (b : Nat) : List Nat → Option (List Nat)
  | c1 :: bs1 =>
    if 128 ≤ c1 ∧ c1 < 192 then
      (utf8Decode bs1).map (((b - 192) * 64 + (c1 - 128)) :: ·)
    else none
  | [] => none

def utf8Tail2 (b : Nat) : List Nat → Option (List Nat)
  | c1 :: c2 :: bs2 =>
    if (128 ≤ c1 ∧ c1 < 192) ∧ (128 ≤ c2 ∧ c2 < 192) then
      if (b - 224) * 4096 + (c1 - 128) * 64 + (c2 - 128) < 2048
          ∨ (55296 ≤ (b - 224) * 4096 + (c1 - 128) * 64 + (c2 - 128)
              ∧ (b - 224) * 4096 + (c1 - 128) * 64 + (c2 - 128) < 57344) then none
      else (utf8Decode bs2).map (((b - 224) * 4096 + (c1 - 128) * 64 + (c2 - 128)) :: ·)
    else none
  | _ => none

def utf8Tail3 (b : Nat) : List Nat → Option (List Nat)
  | c1 :: c2 :: c3 :: bs3 =>
    if (128 ≤ c1 ∧ c1 < 192) ∧ (128 ≤ c2 ∧ c2 < 192) ∧ (128 ≤ c3 ∧ c3 < 192) then
      if (b - 240) * 262144 + (c1 - 128) * 4096 + (c2 - 128) * 64 + (c3 - 128) < 65536
          ∨ 1114112 ≤ (b - 240) * 262144 + (c1 - 128) * 4096 + (c2 - 128) * 64
              + (c3 - 128) then none
      else
        (utf8Decode bs3).map
          (((b - 240) * 262144 + (c1 - 128) * 4096 + (c2 - 128) * 64 + (c3 - 128)) :: ·)
    else none
  | _ => none

end

theorem utf8Char_ne_nil (n : Nat) : utf8Char n ≠ [] := by
  by_cases h1 : n < 128
  · simp [utf8Char, h1]
  by_cases h2 : n < 2048
  · simp [utf8Char, h1, h2]
  by_cases h3 : n < 65536
  · simp [utf8Char, h1, h2, h3]
  · simp [utf8Char, h1, h2, h3]

theorem utf8Char_decode (n : Nat) (hv : vsc n = true) (bs : List Nat) :
    utf8Decode (utf8Char n ++ bs) = (utf8Decode bs).map (n :: ·) := by
  have hv' : n < 55296 ∨ (57344 ≤ n ∧ n < 1114112) := by
    simpa [vsc, Bool.or_eq_true, Bool.and_eq_true, decide_eq_true_eq] using hv
  by_cases h1 : n < 128
  · rw [show utf8Char n ++ bs = n :: bs from by simp [utf8Char, h1], utf8Decode.eq_def]
    simp [h1]
  by_cases h2 : n < 2048
  · rw [show utf8Char n ++ bs = (192 + n / 64) :: ((128 + n % 64) :: bs) from by
      simp [utf8Char, h1, h2], utf8Decode.eq_def]
    have ha : ¬(192 + n / 64 < 128) := by omega
    have hb : ¬(192 + n / 64 < 194) := by omega
    have hc : 192 + n / 64 < 224 := by omega
    have hd : 128 ≤ 128 + n % 64 ∧ 128 + n % 64 < 192 := by omega
    have harith : n / 64 * 64 + n % 64 = n := by omega
    simp [utf8Tail1, ha, hb, hc, hd, harith]
  by_cases h3 : n < 65536
  · rw [show utf8Char n ++ bs
        = (224 + n / 4096) :: ((128 + n / 64 % 64) :: ((128 + n % 64) :: bs)) from by
      simp [utf8Char, h1, h2, h3], utf8Decode.eq_def]
    have ha : ¬(224 + n / 4096 < 128) := by omega
    have hb : ¬(224 + n / 4096 < 194) := by omega
    have hc : ¬(224 + n / 4096 < 224) := by omega
    have hd : 224 + n / 4096 < 240 := by omega
    have he : (128 ≤ 128 + n / 64 % 64 ∧ 128 + n / 64 % 64 < 192)
        ∧ (128 ≤ 128 + n % 64 ∧ 128 + n % 64 < 192) := by omega
    have harith : n / 4096 * 4096 + n / 64 % 64 * 64 + n % 64 = n := by omega
    have hrange : ¬(n < 2048 ∨ (55296 ≤ n ∧ n < 57344)) := by omega
    simp [utf8Tail2, ha, hb, hc, hd, he, harith, hrange]
  · rw [show utf8Char n ++ bs
        = (240 + n / 262144) :: ((128 + n / 4096 % 64)
            :: ((128 + n / 64 % 64) :: ((128 + n % 64) :: bs))) from by
      simp [utf8Char, h1, h2, h3], utf8Decode.eq_def]
    have hup : n < 1114112 := by omega
    have ha : ¬(240 + n / 262144 < 128) := by omega
    have hb : ¬(240 + n / 262144 < 194) := by omega
    have hc : ¬(240 + n / 262144 < 224) := by omega
    have hd : ¬(240 + n / 262144 < 240) := by omega
    have he : 240 + n / 262144 < 245 := by omega
    have hf : (128 ≤ 128 + n / 4096 % 64 ∧ 128 + n / 4096 % 64 < 192)
        ∧ (128 ≤ 128 + n / 64 % 64 ∧ 128 + n / 64 % 64 < 192)
        ∧ (128 ≤ 128 + n % 64 ∧ 128 + n % 64 < 192) := by omega
    have harith : n / 262144 * 262144 + n / 4096 % 64 * 4096 + n / 64 % 64 * 64 + n % 64 = n := by omega
    have hrange : ¬(n < 65536 ∨ 1114112 ≤ n) := by omega
    simp [utf8Tail3, ha, hb, hc, hd, he, hf, harith, hrange]

theorem utf8Decode_encode : ∀ cps : List Nat, cps.all vsc = true →
    utf8Decode (utf8EncodeList cps) = some cps := by
  intro cps
  induction cps with
  | nil => intro _; rfl
  | cons c cs ih =>
    intro hall
    simp only [List.all_cons, Bool.and_eq_true] at hall
    rw [utf8EncodeList, List.flatMap_cons, utf8Char_decode c hall.1,
      show List.flatMap cs utf8Char = utf8EncodeList cs from rfl, ih hall.2]
    rfl

theorem utf8EncodeList_ne_nil {cps : List Nat} (h : cps ≠ []) :
    utf8EncodeList cps ≠ [] := by
  cases cps with
  | nil => exact absurd rfl h
  | cons c cs =>
    rw [utf8EncodeList, List.flatMap_cons]
    intro hcontra
    exact utf8Char_ne_nil c (List.append_eq_nil.mp hcontra).1

/-! ## The Continuum wire protocol (`app/core/protocol.py`)

`pack_message` and `unpack_message_from_stream`, byte for byte.

A frame is TYPE (4 ASCII bytes, space-padded) + LENGTH (4 bytes, big
endian) + PAYLOAD (UTF-8 JSON).  The stream is modelled as the list of
bytes the peer sent before closing; `readexactly n` returns the first
`n` bytes or raises `asyncio.IncompleteReadError` — an `EOFError`, not a
`ConnectionError` — when fewer remain, consuming everything.  Because
`readexactly` never returns short, the source's three
`raise ConnectionError("Connection closed while reading ...")` branches
(`protocol.py` lines 61-62, 68-69, 80-81) are unreachable; they are
translated faithfully as the `connClosed*` results below, and proven
dead. -/

/-- Failures of `pack_message`, in the order the source can raise them. -/
inductive PackErr where
  | typeTooLong
  | payloadNotEncodable
  | typeNotAscii
  | lengthOverflow
deriving DecidableEq, Repr

/-- Failures of `unpack_message_from_stream`.  `incompleteRead` is
`asyncio.IncompleteReadError` (an `EOFError`); `connClosed*` are the
unreachable `ConnectionError` raises; the last three are `ValueError`s. -/
inductive UnpackErr where
  | incompleteRead (expected got : Nat)
  | connClosedType
  | connClosedLen
  | connClosedPayload
  | typeNotAscii
  | payloadTooLarge (n : Nat)
  | invalidPayload
deriving DecidableEq, Repr

/-- Which unpack failures are `ValueError`s (the TCP server loop answers
these with `ERRO INVALID_FORMAT` and keeps the connection). -/
def UnpackErr.isValueError : UnpackErr → Bool
  | .typeNotAscii | .payloadTooLarge _ | .invalidPayload => true
  | _ => false

/-- Which unpack failures are `ConnectionError`s (the loop breaks
cleanly).  No reachable failure is one. -/
def UnpackErr.isConnError : UnpackErr → Bool
  | .connClosedType | .connClosedLen | .connClosedPayload => true
  | _ => false

/-- Big-endian 4-byte encoding (`struct.pack('>I', n)`). -/
def be32 (n : Nat) : List Nat :=
  [n / 16777216 % 256, n / 65536 % 256, n / 256 % 256, n % 256]

/-- Value of 4 big-endian bytes (`struct.unpack('>I', ...)`). -/
def be32val (b0 b1 b2 b3 : Nat) : Nat := b0 * 16777216 + b1 * 65536 + b2 * 256 + b3

theorem be32_roundtrip (n : Nat) (h : n < 4294967296) :
    be32val (n / 16777216 % 256) (n / 65536 % 256) (n / 256 % 256) (n % 256) = n := by
  simp only [be32val]
  omega

/-- `ContinuumProtocol.pack_message` (`protocol.py`, lines 11-42).
Checks and failures in source order: the 4-character limit, UTF-8
encoding of the JSON payload (raises on lone surrogates), ASCII encoding
of the padded type, and the 32-bit length field. -/
def pack_message (msg_type : PyStr) (payload : Json) : Except PackErr (List Nat) :=
  if 4 < msg_type.length then .error .typeTooLong
  else
    let padded := (msg_type ++ List.replicate (4 - msg_type.length) 32).take 4
    let payloadCps := jsonDumps payload
    if payloadCps.all vsc then
      let payloadBytes := utf8EncodeList payloadCps
      if padded.all (fun c => c < 128) then
        if payloadBytes.length < 4294967296 then
          .ok (padded ++ (be32 payloadBytes.length ++ payloadBytes))
        else .error .lengthOverflow
      else .error .typeNotAscii
    else .error .payloadNotEncodable

/-- `ContinuumProtocol.unpack_message_from_stream` (`protocol.py`,
lines 45-92).  Returns the parse result together with the bytes left in
the stream (what a later read would see).  A zero-length payload decodes
to the empty dict, as in the source (line 90). -/
def unpack_message_from_stream (bs : List Nat) :
    Except UnpackErr (PyStr × Json) × List Nat :=
  if 4 ≤ bs.length then
    let typeBytes := bs.take 4
    let bs1 := bs.drop 4
    if typeBytes.length ≠ 4 then (.error .connClosedType, bs1)
    else if typeBytes.all (fun c => c < 128) then
      let msgType := pyRstrip typeBytes
      if 4 ≤ bs1.length then
        let lenBytes := bs1.take 4
        let bs2 := bs1.drop 4
        if lenBytes.length ≠ 4 then (.error .connClosedLen, bs2)
        else
          let payloadLength :=
            match lenBytes with
            | [b0, b1, b2, b3] => be32val b0 b1 b2 b3
            | _ => 0
          if 10485760 < payloadLength then (.error (.payloadTooLarge payloadLength), bs2)
          else if 0 < payloadLength then
            if payloadLength ≤ bs2.length then
              let payloadBytes := bs2.take payloadLength
              let bs3 := bs2.drop payloadLength
              if payloadBytes.length ≠ payloadLength then (.error .connClosedPayload, bs3)
              else
                match utf8Decode payloadBytes with
                | none => (.error .invalidPayload, bs3)
                | some cps =>
                  match json_loads cps with
                  | some payload => (.ok (msgType, payload), bs3)
                  | none => (.error .invalidPayload, bs3)
            else (.error (.incompleteRead payloadLength bs2.length), [])
          else (.ok (msgType, .objNil), bs2)
      else (.error (.incompleteRead 4 bs1.length), [])
    else (.error .typeNotAscii, bs1)
  else (.error (.incompleteRead 4 bs.length), [])

/-! ### Round-trip of `pack_message` and `unpack_message_from_stream` -/

theorem natDec_valid (n : Nat) : ∀ c ∈ natDec n, vsc c = true := by
  intro c hc
  have := natDec_digits n c hc
  simp only [isDigitCp, Bool.and_eq_true, decide_eq_true_eq] at this
  simp only [vsc, Bool.or_eq_true, decide_eq_true_eq]
  left
  omega

theorem intDec_valid (i : Int) : ∀ c ∈ intDec i, vsc c = true := by
  intro c hc
  by_cases hneg : i < 0
  · simp only [intDec, if_pos hneg, List.mem_cons] at hc
    rcases hc with hc | hc
    · subst hc; decide
    · exact natDec_valid _ c hc
  · simp only [intDec, if_neg hneg] at hc
    exact natDec_valid _ c hc

theorem escChar_valid {c : Nat} (h : vsc c = true) : ∀ d ∈ escChar c, vsc d = true := by
  intro d hd
  by_cases h34 : c = 34
  · rw [show escChar c = [92, 34] from by simp [escChar, h34]] at hd
    simp only [List.mem_cons, List.not_mem_nil, or_false] at hd
    rcases hd with rfl | rfl <;> decide
  by_cases h92 : c = 92
  · rw [show escChar c = [92, 92] from by simp [escChar, h34, h92]] at hd
    simp only [List.mem_cons, List.not_mem_nil, or_false] at hd
    rcases hd with rfl | rfl <;> decide
  by_cases h8 : c = 8
  · rw [show escChar c = [92, 98] from by simp [escChar, h34, h92, h8]] at hd
    simp only [List.mem_cons, List.not_mem_nil, or_false] at hd
    rcases hd with rfl | rfl <;> decide
  by_cases h12 : c = 12
  · rw [show escChar c = [92, 102] from by simp [escChar, h34, h92, h8, h12]] at hd
    simp only [List.mem_cons, List.not_mem_nil, or_false] at hd
    rcases hd with rfl | rfl <;> decide
  by_cases h10 : c = 10
  · rw [show escChar c = [92, 110] from by simp [escChar, h34, h92, h8, h12, h10]] at hd
    simp only [List.mem_cons, List.not_mem_nil, or_false] at hd
    rcases hd with rfl | rfl <;> decide
  by_cases h13 : c = 13
  · rw [show escChar c = [92, 114] from by simp [escChar, h34, h92, h8, h12, h10, h13]] at hd
    simp only [List.mem_cons, List.not_mem_nil, or_false] at hd
    rcases hd with rfl | rfl <;> decide
  by_cases h9 : c = 9
  · rw [show escChar c = [92, 116] from by
      simp [escChar, h34, h92, h8, h12, h10, h13, h9]] at hd
    simp only [List.mem_cons, List.not_mem_nil, or_false] at hd
    rcases hd with rfl | rfl <;> decide
  by_cases hc32 : c < 32
  · rw [show escChar c = [92, 117, 48, 48, hexDigitL (c / 16), hexDigitL (c % 16)] from by
      simp [escChar, h34, h92, h8, h12, h10, h13, h9, hc32]] at hd
    have hh1 : hexDigitL (c / 16) < 128 := by unfold hexDigitL; split <;> omega
    have hh2 : hexDigitL (c % 16) < 128 := by unfold hexDigitL; split <;> omega
    simp only [List.mem_cons, List.not_mem_nil, or_false] at hd
    simp only [vsc, Bool.or_eq_true, Bool.and_eq_true, decide_eq_true_eq]
    rcases hd with rfl | rfl | rfl | rfl | rfl | rfl <;> omega
  · rw [show escChar c = [c] from by
      simp [escChar, h34, h92, h8, h12, h10, h13, h9, hc32]] at hd
    simp only [List.mem_cons, List.not_mem_nil, or_false] at hd
    subst hd
    exact h

theorem encodeStr_valid {s : PyStr} (h : s.all vsc = true) :
    (encodeStr s).all vsc = true := by
  simp only [encodeStr, List.all_cons, List.all_append, Bool.and_eq_true]
  refine ⟨by decide, ?_, by decide⟩
  simp only [List.all_eq_true] at h ⊢
  intro d hd
  obtain ⟨c, hc, hdc⟩ := List.mem_flatMap.mp hd
  exact escChar_valid (h c hc) d hdc

/-- A well-formed payload with valid scalar strings serializes entirely
to valid scalar values, so its UTF-8 encoding succeeds. -/
theorem jsonDumps_valid : ∀ j : Json, strsValid j = true →
    (jsonDumps j).all vsc = true ∧ (dumpItems j).all vsc = true
      ∧ (dumpMembers j).all vsc = true := by
  intro j
  induction j with
  | null => intro _; exact ⟨by decide, rfl, rfl⟩
  | bool b => intro _; cases b <;> exact ⟨by decide, rfl, rfl⟩
  | num i =>
    intro _
    refine ⟨?_, rfl, rfl⟩
    simp only [jsonDumps, List.all_eq_true]
    exact intDec_valid i
  | str s =>
    intro h
    exact ⟨encodeStr_valid (by simpa [strsValid] using h), rfl, rfl⟩
  | arrNil => intro _; exact ⟨by decide, rfl, rfl⟩
  | objNil => intro _; exact ⟨by decide, rfl, rfl⟩
  | arrCons hd tl ihhd ihtl =>
    intro h
    simp only [strsValid, Bool.and_eq_true] at h
    have h1 := ihhd h.1
    have h2 := ihtl h.2
    refine ⟨?_, ?_, rfl⟩
    · simp [jsonDumps, List.all_append, h1.1, h2.2.1]
      decide
    · simp [dumpItems, List.all_append, h1.1, h2.2.1]
      decide
  | objCons k v tl ihv ihtl =>
    intro h
    simp only [strsValid, Bool.and_eq_true] at h
    have hk := encodeStr_valid h.1.1
    have h1 := ihv h.1.2
    have h2 := ihtl h.2
    refine ⟨?_, rfl, ?_⟩
    · simp [jsonDumps, List.all_append, hk, h1.1, h2.2.2]
      decide
    · simp [dumpMembers, List.all_append, hk, h1.1, h2.2.2]
      decide

theorem dropWhile_replicate32 (k : Nat) (x : List Nat) :
    List.dropWhile pyIsSpaceAscii (List.replicate k 32 ++ x)
      = List.dropWhile pyIsSpaceAscii x := by
  induction k with
  | zero => simp
  | succ k ih =>
    rw [List.replicate_succ, List.cons_append, List.dropWhile_cons]
    simp [show pyIsSpaceAscii 32 = true from rfl, ih]

/-- Space padding disappears under `str.rstrip()`. -/
theorem pyRstrip_pad (t : PyStr) (k : Nat) :
    pyRstrip (t ++ List.replicate k 32) = pyRstrip t := by
  simp only [pyRstrip, List.reverse_append, List.reverse_replicate]
  rw [dropWhile_replicate32]

theorem pack_unpack_roundtrip (t : PyStr) (j : Json)
    (htlen : t.length ≤ 4) (hascii : t.all (fun c => c < 128) = true)
    (hwf : jsonWF j = true) (hstrs : strsValid j = true)
    (hsize : (utf8EncodeList (jsonDumps j)).length ≤ 10485760) :
    ∃ frame, pack_message t j = .ok frame ∧
      unpack_message_from_stream frame = (.ok (pyRstrip t, j), []) := by
  have hvalid : (jsonDumps j).all vsc = true := (jsonDumps_valid j hstrs).1
  set B := utf8EncodeList (jsonDumps j) with hB
  set P := t ++ List.replicate (4 - t.length) 32 with hP
  have hPlen : P.length = 4 := by
    simp only [hP, List.length_append, List.length_replicate]
    omega
  have hPtake : P.take 4 = P := List.take_of_length_le (by omega)
  have hPascii : P.all (fun c => c < 128) = true := by
    simp only [hP, List.all_append, Bool.and_eq_true]
    refine ⟨hascii, ?_⟩
    simp only [List.all_eq_true]
    intro c hc
    rw [List.eq_of_mem_replicate hc]
    decide
  have hL32 : B.length < 4294967296 := by omega
  have hpack : pack_message t j = .ok (P ++ (be32 B.length ++ B)) := by
    simp only [pack_message, hvalid, hPascii, if_pos hL32, if_neg (by omega : ¬4 < t.length),
      if_true, hPtake, ← hB, ← hP]
  refine ⟨P ++ (be32 B.length ++ B), hpack, ?_⟩
  have hBne : B ≠ [] := utf8EncodeList_ne_nil (by
    have := jsonDumps_len_pos j
    intro hcontra
    rw [hcontra] at this
    simp at this)
  have hBpos : 0 < B.length := List.length_pos.mpr hBne
  have hlen1 : 4 ≤ (P ++ (be32 B.length ++ B)).length := by
    simp [List.length_append, hPlen]
  have htake4 : (P ++ (be32 B.length ++ B)).take 4 = P := by
    rw [← hPlen]
    exact List.take_left P _
  have hdrop4 : (P ++ (be32 B.length ++ B)).drop 4 = be32 B.length ++ B := by
    rw [← hPlen]
    exact List.drop_left P _
  have hbe32len : (be32 B.length).length = 4 := rfl
  have htake4b : (be32 B.length ++ B).take 4 = be32 B.length := by
    rw [← hbe32len]
    exact List.take_left _ B
  have hdrop4b : (be32 B.length ++ B).drop 4 = B := by
    rw [← hbe32len]
    exact List.drop_left _ B
  have htakeB : B.take B.length = B := List.take_of_length_le (by omega)
  have hdropB : B.drop B.length = [] := by simp
  have hbeval : be32val (B.length / 16777216 % 256) (B.length / 65536 % 256)
      (B.length / 256 % 256) (B.length % 256) = B.length := be32_roundtrip _ hL32
  have hrstrip : pyRstrip P = pyRstrip t := pyRstrip_pad t _
  rw [unpack_message_from_stream]
  simp only [htake4, hdrop4, htake4b, hdrop4b, if_pos hlen1, hPlen]
  simp only [be32, hbeval, if_neg (show ¬((4 : Nat) ≠ 4) from by omega)]
  simp only [if_neg (show ¬10485760 < B.length from by omega), if_pos hBpos,
    if_pos (show B.length ≤ B.length from le_refl _), htakeB, hdropB,
    if_neg (show ¬(B.length ≠ B.length) from by omega)]
  have hdecode : utf8Decode B = some (jsonDumps j) := by
    rw [hB]
    exact utf8Decode_encode _ hvalid
  simp [hPascii, hrstrip, hdecode, json_loads_dumps hwf]

/-! ## AuthManager (`app/services/auth_manager.py`)

Users, token authentication, per-model authorization and the sliding
rate-limit window.  The user table and the tracker are Python dicts,
modelled as assoc lists with first-binding-position update semantics.
Timestamps (`time.time()` floats) are modelled as integers; all the
properties claimed are order-theoretic, so the discretisation is
lossless. -/

/-- `dict.get(key)` — first matching binding. -/
def dictGet {β : Type} : List (PyStr × β) → PyStr → Option β
  | [], _ => none
  | (k, v) :: rest, key => if k = key then some v else dictGet rest key

/-- `d[key] = v` — replace in place, or append a new binding. -/
def dictSet {β : Type} : List (PyStr × β) → PyStr → β → List (PyStr × β)
  | [], key, v => [(key, v)]
  | (k, w) :: rest, key, v =>
    if k = key then (k, v) :: rest else (k, w) :: dictSet rest key v

/-- The `User` dataclass (`auth_manager.py`, lines 8-14). -/
structure User where
  token : PyStr
  name : PyStr
  permissions : List PyStr
  rate_limit : PyStr
deriving DecidableEq, Repr

/-- The mutable state of an `AuthManager`: the immutable user table and
the per-token rate-limit tracker (`defaultdict(list)`). -/
structure AuthState where
  users : List (PyStr × User)
  rate_limit_tracker : List (PyStr × List Int)
deriving DecidableEq, Repr

namespace AuthManager

/-- `AuthManager.authenticate` — exact dict lookup. -/
def authenticate (st : AuthState) (token : PyStr) : Option User :=
  dictGet st.users token

/-- `AuthManager.is_authorized` — unknown token is never authorized;
otherwise exact membership of the model id in the permission list. -/
def is_authorized (st : AuthState) (token : PyStr) (model_id : PyStr) : Bool :=
  match authenticate st token with
  | none => false
  | some user => model_id ∈ user.permissions

/-- `AuthManager.get_user_info` — the dict sent back in a successful
`ARSP`. -/
def get_user_info (st : AuthState) (token : PyStr) : Option Json :=
  match authenticate st token with
  | none => none
  | some u =>
    some (jobj [(pys "name", .str u.name),
                (pys "permissions", jarr (u.permissions.map .str)),
                (pys "rate_limit", .str u.rate_limit)])

/-- `AuthManager._parse_rate_limit` (`auth_manager.py`, lines 108-133).
`split('/')` must give exactly two parts and the count must parse as an
int, else the `(10, 60)` fallback; an unrecognized unit keeps the parsed
count and only defaults the period to 60 seconds
(`time_multipliers.get(time_unit, 60)`). -/
def parse_rate_limit (rate_limit_str : PyStr) : Int × Nat :=
  match pySplitOn 47 rate_limit_str with
  | [limit_str, time_unit] =>
    match pyInt limit_str with
    | some limit =>
      let seconds : Nat :=
        if time_unit = pys "second" then 1
        else if time_unit = pys "minute" then 60
        else if time_unit = pys "hour" then 3600
        else if time_unit = pys "day" then 86400
        else 60
      (limit, seconds)
    | none => (10, 60)
  | _ => (10, 60)

/-- `AuthManager.check_rate_limit` (`auth_manager.py`, lines 135-165).
Unknown token: deny without touching the tracker.  Otherwise prune the
window to timestamps strictly newer than `now - period`, store the
pruned window, deny if it already holds `limit` entries, else append
`now` and allow. -/
def check_rate_limit (st : AuthState) (token : PyStr) (now : Int) : Bool × AuthState :=
  match authenticate st token with
  | none => (false, st)
  | some user =>
    let lp := parse_rate_limit user.rate_limit
    let cutoff : Int := now - (lp.2 : Int)
    let window := (dictGet st.rate_limit_tracker token).getD []
    let kept := window.filter (fun ts => cutoff < ts)
    let st1 : AuthState :=
      { st with rate_limit_tracker := dictSet st.rate_limit_tracker token kept }
    if lp.1 ≤ (kept.length : Int) then (false, st1)
    else (true,
      { st1 with rate_limit_tracker := dictSet st1.rate_limit_tracker token (kept ++ [now]) })

end AuthManager

/-! ## ModelRouter (`app/services/model_router.py`)

The router is generic in the provider-handle type: `load_models` builds
it with `ProviderKind` handles (one fresh instance per entry), while the
server-level theorems instantiate it with behavioural provider models. -/

/-- The provider classes `_create_provider` can instantiate. -/
inductive ProviderKind where
  | ollama
  | openai
deriving DecidableEq, Repr

/-- The two dicts of a `ModelRouter`. -/
structure ModelRouter (P : Type) where
  model_providers : List (PyStr × P)
  model_configs : List (PyStr × Json)
deriving DecidableEq, Repr

namespace ModelRouter

/-- `ModelRouter._create_provider` (`model_router.py`, lines 54-79).
`openai_api_key` models `os.getenv("OPENAI_API_KEY")`; `OllamaProvider()`
always constructs, `OpenAIProvider()` is dropped when the key is unset
or empty (falsy), any other type is unsupported. -/
def create_provider (openai_api_key : Option PyStr) (provider_type : PyStr) :
    Option ProviderKind :=
  if pyLower provider_type = pys "ollama" then some .ollama
  else if pyLower provider_type = pys "openai" then
    match openai_api_key with
    | some key => if key = [] then none else some .openai
    | none => none
  else none

/-- One record of `models.yml`: `raw` is the whole dict, `id` and
`provider` its mandatory fields (a record missing either aborts startup
with a `KeyError` before any routing state exists, which is outside the
claims about a loaded router). -/
structure ModelEntry where
  id : PyStr
  provider : PyStr
  raw : Json
deriving DecidableEq, Repr

/-- The loop body of `ModelRouter.load_models` (lines 30-43): store the
raw config unconditionally, then install a provider handle only if
construction succeeded. -/
def load_step (env : Option PyStr) (r : ModelRouter ProviderKind) (e : ModelEntry) :
    ModelRouter ProviderKind :=
  let r1 := { r with model_configs := dictSet r.model_configs e.id e.raw }
  match create_provider env e.provider with
  | some p => { r1 with model_providers := dictSet r1.model_providers e.id p }
  | none => r1

def load_models_aux (env : Option PyStr) :
    ModelRouter ProviderKind → List ModelEntry → ModelRouter ProviderKind
  | r, [] => r
  | r, e :: rest => load_models_aux env (load_step env r e) rest

/-- `ModelRouter.load_models` over a parsed `models.yml`. -/
def load_models (env : Option PyStr) (entries : List ModelEntry) :
    ModelRouter ProviderKind :=
  load_models_aux env ⟨[], []⟩ entries

/-- `ModelRouter.get_provider_for_model`. -/
def get_provider_for_model {P : Type} (r : ModelRouter P) (model_id : PyStr) : Option P :=
  dictGet r.model_providers model_id

/-- `ModelRouter.get_available_models` — `list(dict.keys())`, insertion
order. -/
def get_available_models {P : Type} (r : ModelRouter P) : List PyStr :=
  r.model_providers.map Prod.fst

/-- `ModelRouter.get_model_config`. -/
def get_model_config {P : Type} (r : ModelRouter P) (model_id : PyStr) : Option Json :=
  dictGet r.model_configs model_id

/-- `ModelRouter.is_model_available`. -/
def is_model_available {P : Type} (r : ModelRouter P) (model_id : PyStr) : Bool :=
  (dictGet r.model_providers model_id).isSome

end ModelRouter

/-! ### Router loading lemmas -/

theorem dictGet_append_notMem {β : Type} (a b : List (PyStr × β)) (k : PyStr)
    (h : k ∉ a.map Prod.fst) : dictGet (a ++ b) k = dictGet b k := by
  induction a with
  | nil => rfl
  | cons hd tl ih =>
    simp only [List.map_cons, List.mem_cons] at h
    push_neg at h
    rw [List.cons_append, show dictGet ((hd.1, hd.2) :: (tl ++ b)) k
        = if hd.1 = k then some hd.2 else dictGet (tl ++ b) k from rfl]
    rw [if_neg (show ¬hd.1 = k from fun hc => h.1 hc.symm), ih h.2]

theorem dictSet_fresh {β : Type} (d : List (PyStr × β)) (k : PyStr) (v : β)
    (h : k ∉ d.map Prod.fst) : dictSet d k v = d ++ [(k, v)] := by
  induction d with
  | nil => rfl
  | cons hd tl ih =>
    simp only [List.map_cons, List.mem_cons] at h
    push_neg at h
    rw [show dictSet ((hd.1, hd.2) :: tl) k v
        = if hd.1 = k then (hd.1, v) :: tl else (hd.1, hd.2) :: dictSet tl k v from rfl]
    rw [if_neg (show ¬hd.1 = k from fun hc => h.1 hc.symm), ih h.2]
    rfl

theorem load_models_aux_spec (env : Option PyStr) :
    ∀ (entries : List ModelRouter.ModelEntry) (r : ModelRouter ProviderKind),
    (entries.map ModelRouter.ModelEntry.id).Nodup →
    (∀ e ∈ entries, e.id ∉ r.model_providers.map Prod.fst
      ∧ e.id ∉ r.model_configs.map Prod.fst) →
    (ModelRouter.load_models_aux env r entries).model_providers
        = r.model_providers ++ entries.filterMap
            (fun e => (ModelRouter.create_provider env e.provider).map (fun p => (e.id, p)))
      ∧ (ModelRouter.load_models_aux env r entries).model_configs
        = r.model_configs ++ entries.map (fun e => (e.id, e.raw)) := by
  intro entries
  induction entries with
  | nil => intro r _ _; simp [ModelRouter.load_models_aux]
  | cons e rest ih =>
    intro r hnd hfresh
    simp only [List.map_cons, List.nodup_cons] at hnd
    have he := hfresh e (List.mem_cons_self e rest)
    rw [show ModelRouter.load_models_aux env r (e :: rest)
        = ModelRouter.load_models_aux env (ModelRouter.load_step env r e) rest from rfl]
    rcases hp : ModelRouter.create_provider env e.provider with _ | p
    · have hstep : ModelRouter.load_step env r e
          = (⟨r.model_providers, r.model_configs ++ [(e.id, e.raw)]⟩ : ModelRouter ProviderKind) := by
        simp [ModelRouter.load_step, hp, dictSet_fresh _ _ _ he.2]
      rw [hstep]
      have hih := ih (⟨r.model_providers, r.model_configs ++ [(e.id, e.raw)]⟩ : ModelRouter ProviderKind)
        hnd.2 (by
          intro e2 he2
          have h2 := hfresh e2 (List.mem_cons_of_mem e he2)
          refine ⟨h2.1, ?_⟩
          simp only [List.map_append, List.map_cons, List.map_nil, List.mem_append,
            List.mem_singleton]
          rintro (hc | hc)
          · exact h2.2 hc
          · exact hnd.1 (hc ▸ List.mem_map_of_mem ModelRouter.ModelEntry.id he2))
      refine ⟨?_, ?_⟩
      · rw [hih.1]
        simp [List.filterMap_cons, hp]
      · rw [hih.2]
        simp [List.append_assoc]
    · have hstep : ModelRouter.load_step env r e
          = (⟨r.model_providers ++ [(e.id, p)], r.model_configs ++ [(e.id, e.raw)]⟩
              : ModelRouter ProviderKind) := by
        simp [ModelRouter.load_step, hp, dictSet_fresh _ _ _ he.2, dictSet_fresh _ _ _ he.1]
      rw [hstep]
      have hih := ih (⟨r.model_providers ++ [(e.id, p)], r.model_configs ++ [(e.id, e.raw)]⟩
          : ModelRouter ProviderKind)
        hnd.2 (by
          intro e2 he2
          have h2 := hfresh e2 (List.mem_cons_of_mem e he2)
          have hne : e2.id ≠ e.id := by
            intro hc
            exact hnd.1 (hc ▸ List.mem_map_of_mem ModelRouter.ModelEntry.id he2)
          constructor
          · simp only [List.map_append, List.map_cons, List.map_nil, List.mem_append,
              List.mem_singleton]
            rintro (hc | hc)
            · exact h2.1 hc
            · exact hne hc
          · simp only [List.map_append, List.map_cons, List.map_nil, List.mem_append,
              List.mem_singleton]
            rintro (hc | hc)
            · exact h2.2 hc
            · exact hne hc)
      refine ⟨?_, ?_⟩
      · rw [hih.1]
        simp [List.filterMap_cons, hp, List.append_assoc]
      · rw [hih.2]
        simp [List.append_assoc]

/-- What loading leaves behind, for `models.yml` files whose records have
pairwise-distinct ids (the data model declares `model_id` a unique key):
the provider dict holds exactly the constructible entries in file order,
and the config dict holds every record. -/
theorem load_models_spec (env : Option PyStr) (entries : List ModelRouter.ModelEntry)
    (hnd : (entries.map ModelRouter.ModelEntry.id).Nodup) :
    (ModelRouter.load_models env entries).model_providers
        = entries.filterMap
            (fun e => (ModelRouter.create_provider env e.provider).map (fun p => (e.id, p)))
      ∧ (ModelRouter.load_models env entries).model_configs
        = entries.map (fun e => (e.id, e.raw)) := by
  have h := load_models_aux_spec env entries ⟨[], []⟩ hnd (by intro e _; simp)
  simpa [ModelRouter.load_models] using h

/-! ## The Continuum TCP server (`app/core/server.py`)

The per-connection loop `_handle_client` with its dispatch to
`_handle_auth` and `_handle_completion`.  Frames the server writes are
modelled pre-serialization as `(type, payload)` pairs — the claims are
about which frames are sent, and `pack_message` (already modelled above)
is what would serialize them. -/

/-- A provider handle's behaviour for one completion call: the fragments
its `stream_completion` yields in order, whether it raises after them,
and the exception text (`str(e)`).  This models the provider contract of
the spec (§6): a finite fragment sequence that must signal failure. -/
structure Provider where
  chunks : List PyStr
  fails : Bool
  err : PyStr
deriving DecidableEq, Repr

/-- A frame the server writes, pre-serialization. -/
abbrev OutMsg := PyStr × Json

/-- Python truthiness of a JSON-representable value. -/
def pyTruthy : Json → Bool
  | .null => false
  | .bool b => b
  | .num n => n ≠ 0
  | .str s => s ≠ []
  | .arrNil => false
  | .arrCons _ _ => true
  | .objNil => false
  | .objCons _ _ _ => true

/-- The text Python interpolates for a value in an f-string: the string
itself for `str`, approximated by the JSON rendering otherwise (no claim
depends on the non-string case). -/
def pyStrOfJson : Json → PyStr
  | .str s => s
  | j => jsonDumps j

/-- `ContinuumProtocol.create_auth_response` (`protocol.py`, lines
107-127): the `user` key is added only when `user_info` is present and
truthy. -/
def create_auth_response (success : Bool) (message : PyStr) (user_info : Option Json) :
    OutMsg :=
  (pys "ARSP",
    jobj ([(pys "success", .bool success), (pys "message", .str message)]
      ++ match user_info with
         | some u => if pyTruthy u then [(pys "user", u)] else []
         | none => []))

/-- `ContinuumProtocol.create_completion_chunk`. -/
def create_completion_chunk (content : PyStr) (is_final : Bool) : OutMsg :=
  (pys "CHNK", jobj [(pys "content", .str content), (pys "final", .bool is_final)])

/-- `ContinuumProtocol.create_error_response`. -/
def create_error_response (code message : PyStr) : OutMsg :=
  (pys "ERRO", jobj [(pys "code", .str code), (pys "message", .str message)])

/-- Exact-prefix test (`str.startswith`). -/
def isPreOf : List Nat → List Nat → Bool
  | [], _ => true
  | _ :: _, [] => false
  | a :: as, b :: bs => a = b && isPreOf as bs

/-- Substring test (Python `needle in haystack` on strings). -/
def containsSub (needle : List Nat) : List Nat → Bool
  | [] => needle = []
  | c :: rest => isPreOf needle (c :: rest) || containsSub needle rest

/-- Python `x in somelist` (element-wise `==`). -/
def arrContains (x : Json) : Json → Bool
  | .arrCons hd tl => hd = x || arrContains x tl
  | _ => false

/-- `dict.get` keyed by an arbitrary (hashable) value: only a `str` can
equal a `str` key.  The catch-all also absorbs unhashable keys, which in
Python raise; every call site either guards them or is unreachable for
them (see the call sites' comments). -/
def getProviderJson {P : Type} (router : ModelRouter P) : Json → Option P
  | .str m => ModelRouter.get_provider_for_model router m
  | _ => none

/-- `is_authorized` applied to the raw `model` field of a payload: a
non-string value never equals a string in the permission list. -/
def is_authorizedJson (auth : AuthState) (token : PyStr) : Json → Bool
  | .str m => AuthManager.is_authorized auth token m
  | _ => false

/-- The session state of one TCP connection inside `_handle_client`:
the bound identity, the unread bytes, and the shared services. -/
structure SessState where
  user : Option User
  stream : List Nat
  auth : AuthState
  router : ModelRouter Provider
deriving DecidableEq, Repr

/-- Outcome of handling one frame: the frames written, and whether the
loop reads on (`next`) or the connection is torn down (`closed`). -/
inductive StepResult where
  | next (out : List OutMsg) (st : SessState)
  | closed (out : List OutMsg)
deriving DecidableEq, Repr

/-- `_handle_auth` (`server.py`, lines 121-165): a missing or falsy
token gets `ARSP success:false`; a string token is authenticated; a
hashable non-string never matches a user; an unhashable token makes
`dict.get` raise, which the broad `except` turns into `ERRO AUTH_ERROR`.
A non-dict payload makes `payload.get` raise `AttributeError`, same
handler. -/
def handle_auth (auth : AuthState) (payload : Json) : List OutMsg :=
  if isObjShape payload then
    match objGet payload (pys "token") with
    | none =>
      [create_auth_response false (pys "Missing token in authentication request") none]
    | some v =>
      if pyTruthy v = false then
        [create_auth_response false (pys "Missing token in authentication request") none]
      else
        match v with
        | .str s =>
          match AuthManager.authenticate auth s with
          | some _ =>
            [create_auth_response true (pys "Authentication successful")
              (AuthManager.get_user_info auth s)]
          | none => [create_auth_response false (pys "Invalid authentication token") none]
        | .num _ | .bool _ =>
          [create_auth_response false (pys "Invalid authentication token") none]
        | _ => [create_error_response (pys "AUTH_ERROR") (pys "Internal authentication error")]
  else
    [create_error_response (pys "AUTH_ERROR") (pys "Internal authentication error")]

/-- One fragment loop iteration of `_handle_completion`: falsy fragments
are skipped (`if chunk:`). -/
def relayChunks : List PyStr → List OutMsg
  | [] => []
  | c :: cs => (if c ≠ [] then [create_completion_chunk c false] else []) ++ relayChunks cs

/-- The relay of `_handle_completion` (`server.py`, lines 217-241): all
fragments as non-final `CHNK`s, then either the final empty `CHNK` or,
if the provider raised, a single `ERRO GENERATION_ERROR`. -/
def tcpRelay (p : Provider) : List OutMsg :=
  relayChunks p.chunks ++
    (if p.fails then
      [create_error_response (pys "GENERATION_ERROR")
        (pys "Error generating completion: " ++ p.err)]
    else [create_completion_chunk [] true])

/-- `_handle_completion` (`server.py`, lines 167-249), called only with a
bound identity.  Note there is no rate-limit check anywhere in it. -/
def handle_completion (auth : AuthState) (router : ModelRouter Provider) (user : User)
    (payload : Json) : List OutMsg :=
  if isObjShape payload then
    let model := (objGet payload (pys "model")).getD .null
    let settings := (objGet payload (pys "settings")).getD .objNil
    if pyTruthy model = false then
      [create_error_response (pys "MISSING_MODEL") (pys "Model field is required")]
    else if is_authorizedJson auth user.token model = false then
      [create_error_response (pys "UNAUTHORIZED_MODEL")
        (pys "User not authorized to use model: " ++ pyStrOfJson model)]
    else
      match getProviderJson router model with
      | none =>
        [create_error_response (pys "MODEL_NOT_FOUND")
          (pys "Model not found: " ++ pyStrOfJson model)]
      | some provider =>
        if isObjShape settings then tcpRelay provider
        else
          [create_error_response (pys "INTERNAL_ERROR") (pys "Internal server error")]
  else
    [create_error_response (pys "INTERNAL_ERROR") (pys "Internal server error")]

/-- The dispatch of `_handle_client` (`server.py`, lines 77-108) on one
decoded frame.  The `AUTH` arm replays lines 78-84 exactly: after
`_handle_auth` replies, when the payload carries a `token` key the bound
identity is re-assigned to `authenticate(payload["token"])` — whatever
that returns; an unhashable token makes that second `authenticate` raise
outside any inner handler, tearing the connection down.  A non-dict
payload reaches `"token" in payload`, which is a substring or membership
test for `str`/`list` and a `TypeError` (connection torn down)
otherwise. -/
def dispatch_message (st : SessState) (msgType : PyStr) (payload : Json) : StepResult :=
  if msgType = pys "AUTH" then
    let out := handle_auth st.auth payload
    if isObjShape payload then
      match objGet payload (pys "token") with
      | some v =>
        match v with
        | .str s => .next out { st with user := AuthManager.authenticate st.auth s }
        | .num _ | .bool _ | .null => .next out { st with user := none }
        | _ => .closed out
      | none => .next out st
    else
      match payload with
      | .str s => if containsSub (pys "token") s then .closed out else .next out st
      | .arrNil => .next out st
      | .arrCons hd tl =>
        if arrContains (.str (pys "token")) (.arrCons hd tl) then .closed out
        else .next out st
      | _ => .closed out
  else if msgType = pys "COMP" then
    match st.user with
    | none =>
      .next [create_error_response (pys "NOT_AUTHENTICATED")
        (pys "Must authenticate before making completion requests")] st
    | some u => .next (handle_completion st.auth st.router u payload) st
  else
    .next [create_error_response (pys "UNKNOWN_MESSAGE_TYPE")
      (pys "Unknown message type: " ++ msgType)] st

/-- `str(e)` for the `ValueError`s of the codec.  Only the
payload-too-large text is determined by the model; the decode-error
texts come from nested library exceptions and no claim inspects them. -/
def unpackErrText : UnpackErr → PyStr
  | .payloadTooLarge n => pys "Payload too large: " ++ (natDec n ++ pys " bytes")
  | _ => pys "<unmodelled exception text>"

/-- One iteration of the `while True` loop of `_handle_client`
(`server.py`, lines 55-108): read a frame; a `ConnectionError` breaks
(only the dead codec branches raise one), a `ValueError` answers
`ERRO INVALID_FORMAT` and continues, any other failure — in particular
`IncompleteReadError`, an `EOFError` — escapes to the outer
`except Exception` and the connection is closed by the `finally`. -/
def server_step (st : SessState) : StepResult :=
  match unpack_message_from_stream st.stream with
  | (.error e, rest) =>
    if e.isConnError then .closed []
    else if e.isValueError then
      .next [create_error_response (pys "INVALID_FORMAT") (unpackErrText e)]
        { st with stream := rest }
    else .closed []
  | (.ok tp, rest) => dispatch_message { st with stream := rest } tp.1 tp.2

/-! ## The HTTP bridge (`app/bridge/http_server.py`)

The `/v1/chat/completions` endpoint and its streaming/buffered relays,
and the WebSocket endpoint's per-message handling.  SSE frames and
WebSocket messages are modelled structurally. -/

/-- One unit of the SSE stream `_stream_chat_completion` yields. -/
inductive SseEvent where
  | content (s : PyStr)
  | finish
  | done
  | errorEvt (msg : PyStr)
deriving DecidableEq, Repr

/-- `_stream_chat_completion` (`http_server.py`, lines 423-479): one
`content` event per truthy fragment; on normal exhaustion the terminal
chunk (`finish_reason "stop"`, empty delta) then the `[DONE]` sentinel;
if the provider raised, a single in-stream error payload instead. -/
def stream_chat_completion : List PyStr → Bool → PyStr → List SseEvent
  | [], fails, err => if fails then [.errorEvt err] else [.finish, .done]
  | c :: cs, fails, err =>
    (if c ≠ [] then [.content c] else []) ++ stream_chat_completion cs fails err

def streamEvents (p : Provider) : List SseEvent := stream_chat_completion p.chunks p.fails p.err

/-- `_complete_chat_completion` (`http_server.py`, lines 481-511):
concatenate every fragment; an exception mid-iteration propagates, so no
partial content is ever returned. -/
def complete_chat_completion (p : Provider) : Except PyStr PyStr :=
  if p.fails then .error p.err else .ok (p.chunks.foldl (· ++ ·) [])

/-- The endpoint's observable outcome. -/
inductive HttpResp where
  | httpError (status : Nat) (detail : PyStr)
  | streaming (events : List SseEvent)
  | completed (content : PyStr)
deriving DecidableEq, Repr

/-- The admission-relevant fields of a validated `ChatCompletionRequest`
(`bridge/models.py`): pydantic guarantees `model` is a string. -/
structure ChatRequest where
  model : PyStr
  stream : Bool
deriving DecidableEq, Repr

/-- `_extract_token` (`http_server.py`, lines 413-421). -/
def extract_token (authorization : Option PyStr) : Except HttpResp PyStr :=
  match authorization with
  | none => .error (.httpError 401 (pys "Authorization header missing"))
  | some h =>
    if isPreOf (pys "Bearer ") h then .ok (h.drop 7)
    else .error (.httpError 401 (pys "Invalid authorization header format"))

/-- `chat_completions` (`http_server.py`, lines 209-277): extract token,
authenticate, rate-limit, authorize, resolve the provider, then stream
or buffer.  Returns the response and the auth state (the rate-limit
check is the only mutation). -/
def chat_completions (auth : AuthState) (router : ModelRouter Provider) (now : Int)
    (authorization : Option PyStr) (req : ChatRequest) : HttpResp × AuthState :=
  match extract_token authorization with
  | .error e => (e, auth)
  | .ok token =>
    match AuthManager.authenticate auth token with
    | none => (.httpError 401 (pys "Invalid authentication token"), auth)
    | some _ =>
      let rl := AuthManager.check_rate_limit auth token now
      if rl.1 = false then
        (.httpError 429 (pys "Rate limit exceeded. Please try again later."), rl.2)
      else if AuthManager.is_authorized rl.2 token req.model = false then
        (.httpError 403 (pys "User not authorized to use model: " ++ req.model), rl.2)
      else
        match ModelRouter.get_provider_for_model router req.model with
        | none => (.httpError 404 (pys "Model not found: " ++ req.model), rl.2)
        | some provider =>
          if req.stream then (.streaming (streamEvents provider), rl.2)
          else
            match complete_chat_completion provider with
            | .ok content => (.completed content, rl.2)
            | .error e =>
              (.httpError 500 (pys "Error generating completion: " ++ e), rl.2)

/-- One outbound WebSocket message. -/
inductive WsOut where
  | errorMsg (message : PyStr) (etype : PyStr)
  | chunk (content : PyStr)
  | final
deriving DecidableEq, Repr

def wsChunks : List PyStr → List WsOut
  | [] => []
  | c :: cs => (if c ≠ [] then [.chunk c] else []) ++ wsChunks cs

def wsRelay (p : Provider) : List WsOut :=
  wsChunks p.chunks ++
    (if p.fails then
      [.errorMsg (pys "Generation error: " ++ p.err) (pys "generation_error")]
    else [.final])

/-- One inbound message of `websocket_chat_completions` (`http_server.py`,
lines 279-411): token presence and authentication, then the rate limit,
then model extraction, authorization, provider lookup, then the relay.
A non-dict message or an unhashable token makes the handler raise into
the outer `except Exception`, which sends a `server_error` message (the
loop then ends; no claim depends on the termination flag). -/
def ws_handle_message (auth : AuthState) (router : ModelRouter Provider) (now : Int)
    (data : Json) : List WsOut × AuthState :=
  if isObjShape data = false then
    ([.errorMsg (pys "<unmodelled exception text>") (pys "server_error")], auth)
  else
    match objGet data (pys "token") with
    | none => ([.errorMsg (pys "Missing token") (pys "authentication_error")], auth)
    | some tok =>
      if pyTruthy tok = false then
        ([.errorMsg (pys "Missing token") (pys "authentication_error")], auth)
      else
        match tok with
        | .str s =>
          match AuthManager.authenticate auth s with
          | none => ([.errorMsg (pys "Invalid token") (pys "authentication_error")], auth)
          | some _ =>
            let rl := AuthManager.check_rate_limit auth s now
            if rl.1 = false then
              ([.errorMsg (pys "Rate limit exceeded") (pys "rate_limit_error")], rl.2)
            else
              let model := (objGet data (pys "model")).getD .null
              if pyTruthy model = false then
                ([.errorMsg (pys "Missing model") (pys "validation_error")], rl.2)
              else if is_authorizedJson rl.2 s model = false then
                ([.errorMsg (pys "Not authorized for model: " ++ pyStrOfJson model)
                    (pys "authorization_error")], rl.2)
              else
                match getProviderJson router model with
                | none =>
                  ([.errorMsg (pys "Model not found: " ++ pyStrOfJson model)
                      (pys "model_error")], rl.2)
                | some provider =>
                  if isObjShape ((objGet data (pys "settings")).getD .objNil) then
                    (wsRelay provider, rl.2)
                  else
                    ([.errorMsg (pys "<unmodelled exception text>") (pys "server_error")], rl.2)
        | .num _ | .bool _ =>
          ([.errorMsg (pys "Invalid token") (pys "authentication_error")], auth)
        | _ => ([.errorMsg (pys "<unmodelled exception text>") (pys "server_error")], auth)

/-! ## Helper lemmas for the claim theorems -/

theorem dictGet_dictSet {β : Type} : ∀ (d : List (PyStr × β)) (k : PyStr) (v : β),
    dictGet (dictSet d k v) k = some v := by
  intro d k v
  induction d with
  | nil => simp [dictSet, dictGet]
  | cons hd tl ih =>
    rw [show dictSet (hd :: tl) k v
        = if hd.1 = k then (hd.1, v) :: tl else (hd.1, hd.2) :: dictSet tl k v from rfl]
    by_cases hk : hd.1 = k
    · rw [if_pos hk]
      simp [dictGet, hk]
    · rw [if_neg hk]
      simp [dictGet, hk, ih]

theorem dictGet_notMem {β : Type} : ∀ (d : List (PyStr × β)) (k : PyStr),
    k ∉ d.map Prod.fst → dictGet d k = none := by
  intro d k h
  induction d with
  | nil => rfl
  | cons hd tl ih =>
    simp only [List.map_cons, List.mem_cons] at h
    push_neg at h
    rw [show dictGet (hd :: tl) k = if hd.1 = k then some hd.2 else dictGet tl k from rfl,
      if_neg (show ¬hd.1 = k from fun hc => h.1 hc.symm)]
    exact ih h.2

theorem dictGet_of_nodup {β : Type} : ∀ (d : List (PyStr × β)),
    (d.map Prod.fst).Nodup → ∀ kv ∈ d, dictGet d kv.1 = some kv.2 := by
  intro d hnd kv hmem
  induction d with
  | nil => cases hmem
  | cons hd tl ih =>
    simp only [List.map_cons, List.nodup_cons] at hnd
    rw [show dictGet (hd :: tl) kv.1
        = if hd.1 = kv.1 then some hd.2 else dictGet tl kv.1 from rfl]
    rcases List.mem_cons.mp hmem with rfl | hmem'
    · rw [if_pos rfl]
    · have hne : hd.1 ≠ kv.1 := by
        intro hc
        exact hnd.1 (hc ▸ List.mem_map_of_mem Prod.fst hmem')
      rw [if_neg hne]
      exact ih hnd.2 hmem'

/-- The period `_parse_rate_limit` returns is always positive: every
recognized unit is, and so is the 60-second fallback. -/
theorem parse_rate_limit_period_pos (s : PyStr) :
    1 ≤ (AuthManager.parse_rate_limit s).2 := by
  rw [AuthManager.parse_rate_limit]
  rcases hs : pySplitOn 47 s with _ | ⟨a, _ | ⟨b, _ | ⟨c, tl⟩⟩⟩ <;> simp only []
  · omega
  · omega
  · rcases pyInt a with _ | n <;> simp only []
    · omega
    · split_ifs <;> omega
  · omega

/-- `check_rate_limit` only touches the tracker, never the user table. -/
theorem check_rate_limit_users (st : AuthState) (token : PyStr) (now : Int) :
    (AuthManager.check_rate_limit st token now).2.users = st.users := by
  rw [AuthManager.check_rate_limit]
  cases AuthManager.authenticate st token
  · rfl
  · simp only []
    split <;> rfl

/-- `is_authorized` reads only the user table. -/
theorem is_authorized_of_users_eq (st1 st2 : AuthState) (token model : PyStr)
    (h : st1.users = st2.users) :
    AuthManager.is_authorized st1 token model = AuthManager.is_authorized st2 token model := by
  simp only [AuthManager.is_authorized, AuthManager.authenticate, h]

/-- Key projection of the provider table `load_models` builds: exactly
the ids whose provider construction succeeded, in entry order. -/
theorem map_fst_filterMap_create (env : Option PyStr) :
    ∀ (l : List ModelRouter.ModelEntry),
    (l.filterMap (fun e => (ModelRouter.create_provider env e.provider).map
        (fun p => (e.id, p)))).map Prod.fst
      = (l.filter (fun e => (ModelRouter.create_provider env e.provider).isSome)).map
          ModelRouter.ModelEntry.id := by
  intro l
  induction l with
  | nil => rfl
  | cons hd tl ih =>
    rcases hc : ModelRouter.create_provider env hd.provider with _ | p <;>
      simp [List.filterMap_cons, List.filter_cons, hc, ih]

/-! ## Concrete instances -/

/-- A user allowed one request per minute, permitted only model `m`. -/
def cUser : User := ⟨pys "t", pys "alice", [pys "m"], pys "1/minute"⟩

/-- An auth state knowing `cUser`, whose window already holds a
timestamp 995 — at time 1000 the user is over the 1/minute limit. -/
def cAuth : AuthState := ⟨[(pys "t", cUser)], [(pys "t", [995])]⟩

/-- A provider that yields one fragment and succeeds. -/
def cProv : Provider := ⟨[pys "Hi"], false, []⟩

/-- A router serving model `m` through `cProv`. -/
def cRouter : ModelRouter Provider := ⟨[(pys "m", cProv)], []⟩

/-- A TCP session bound to `cUser` over the shared `cAuth`/`cRouter`. -/
def cStA : SessState := ⟨some cUser, [], cAuth, cRouter⟩

/-- A `COMP` payload asking for model `m`. -/
def cCompPayload : Json := jobj [(pys "model", .str (pys "m"))]

/-! ## The claims -/

/-- C7: for a provider yielding the fragments "Hello" and " world", the
HTTP streaming relay emits exactly two content events, then one terminal
finish chunk, then the [DONE] sentinel; the buffered relay returns one
response whose content is "Hello world"; and whenever the provider fails
before finishing, the buffered relay returns the failure — never a
partial result. -/
theorem http_relay_hello_world :
    streamEvents ⟨[pys "Hello", pys " world"], false, []⟩
        = [.content (pys "Hello"), .content (pys " world"), .finish, .done]
    ∧ complete_chat_completion ⟨[pys "Hello", pys " world"], false, []⟩
        = .ok (pys "Hello world")
    ∧ ∀ (chunks : List PyStr) (err : PyStr),
        complete_chat_completion ⟨chunks, true, err⟩ = .error err := by
  refine ⟨by decide, by decide, fun chunks err => rfl⟩

/-- C3: a rate-limit string with two parts, an integer count and an
unrecognized unit keeps the parsed count and defaults only the period to
60 seconds; the full (10, 60) default applies exactly when the string
does not split into two parts or the count is not an integer. -/
theorem rate_limit_parse_defaults :
    (∀ (s ls us : PyStr) (n : Int), pySplitOn 47 s = [ls, us] → pyInt ls = some n →
      us ≠ pys "second" → us ≠ pys "minute" → us ≠ pys "hour" → us ≠ pys "day" →
      AuthManager.parse_rate_limit s = (n, 60))
    ∧ (∀ (s ls us : PyStr), pySplitOn 47 s = [ls, us] → pyInt ls = none →
      AuthManager.parse_rate_limit s = (10, 60))
    ∧ (∀ (s : PyStr), (∀ ls us, pySplitOn 47 s ≠ [ls, us]) →
      AuthManager.parse_rate_limit s = (10, 60)) := by
  refine ⟨?_, ?_, ?_⟩
  · intro s ls us n hsplit hint h1 h2 h3 h4
    rw [AuthManager.parse_rate_limit, hsplit]
    simp only [hint, if_neg h1, if_neg h2, if_neg h3, if_neg h4]
  · intro s ls us hsplit hint
    rw [AuthManager.parse_rate_limit, hsplit]
    simp only [hint]
  · intro s h
    rw [AuthManager.parse_rate_limit]
    rcases hs : pySplitOn 47 s with _ | ⟨a, _ | ⟨b, _ | ⟨c, tl⟩⟩⟩
    · rfl
    · rfl
    · exact absurd hs (h a b)
    · rfl

/-- C3 counterexample: the rate limit "2/fortnight" parses to count 2
with the 60-second default period — not to the claimed full (10, 60)
default — and a user carrying it is denied once 2 requests sit in the
window, where a limit of 10 would still allow the call. -/
theorem rate_limit_unknown_unit_cex :
    AuthManager.parse_rate_limit (pys "2/fortnight") = (2, 60)
    ∧ (AuthManager.check_rate_limit
        ⟨[(pys "t", ⟨pys "t", pys "bob", [], pys "2/fortnight"⟩)], [(pys "t", [999, 1000])]⟩
        (pys "t") 1000).1 = false := ⟨by decide, by decide⟩

/-- C3 witness: the unrecognized-unit and unparsable-count branches at
concrete inputs. -/
theorem rate_limit_parse_defaults_witness :
    AuthManager.parse_rate_limit (pys "7/week") = (7, 60)
    ∧ AuthManager.parse_rate_limit (pys "x/minute") = (10, 60)
    ∧ AuthManager.parse_rate_limit (pys "10") = (10, 60) :=
  ⟨rate_limit_parse_defaults.1 (pys "7/week") (pys "7") (pys "week") 7 (by decide) (by decide)
      (by decide) (by decide) (by decide) (by decide),
   rate_limit_parse_defaults.2.1 (pys "x/minute") (pys "x") (pys "minute") (by decide) (by decide),
   rate_limit_parse_defaults.2.2 (pys "10") (by
     intro ls us h
     rw [show pySplitOn 47 (pys "10") = [[49, 48]] from by decide] at h
     simp at h)⟩

/-- C5: for a type code of at most 4 ASCII characters and a payload with
duplicate-free object keys and surrogate-free strings whose UTF-8
encoding fits the 10 MiB cap, unpacking the packed frame returns the
type code with all trailing ASCII whitespace stripped (Python rstrip,
not just spaces) and the identical payload, consuming the whole frame;
pack rejects any type code longer than 4 characters. -/
theorem pack_unpack_spec :
    (∀ (t : PyStr) (j : Json), t.length ≤ 4 → t.all (fun c => c < 128) = true →
      jsonWF j = true → strsValid j = true →
      (utf8EncodeList (jsonDumps j)).length ≤ 10485760 →
      ∃ frame, pack_message t j = .ok frame ∧
        unpack_message_from_stream frame = (.ok (pyRstrip t, j), []))
    ∧ ∀ (t : PyStr) (j : Json), 4 < t.length → pack_message t j = .error .typeTooLong := by
  refine ⟨fun t j h1 h2 h3 h4 h5 => pack_unpack_roundtrip t j h1 h2 h3 h4 h5, ?_⟩
  intro t j h
  rw [pack_message, if_pos h]

/-- C5 counterexample: the type code "AB\t" (a trailing tab, 3
characters) rounds through pack and unpack to "AB": rstrip strips every
trailing ASCII whitespace character, while stripping only trailing
spaces — as claimed — would leave "AB\t" unchanged. -/
theorem pack_unpack_tab_type_cex :
    pack_message [65, 66, 9] Json.objNil = .ok [65, 66, 9, 32, 0, 0, 0, 2, 123, 125]
    ∧ unpack_message_from_stream [65, 66, 9, 32, 0, 0, 0, 2, 123, 125]
        = (.ok ([65, 66], Json.objNil), [])
    ∧ specStripTrailingSpaces [65, 66, 9] = [65, 66, 9]
    ∧ pyRstrip [65, 66, 9] = [65, 66] := ⟨by decide, by decide, by decide, by decide⟩

/-- C5 witness: the round trip at a concrete AUTH frame, and the
rejection of a 5-character type code. -/
theorem pack_unpack_spec_witness :
    (∃ frame, pack_message (pys "AUTH") (jobj [(pys "token", .str (pys "t"))]) = .ok frame ∧
      unpack_message_from_stream frame
        = (.ok (pyRstrip (pys "AUTH"), jobj [(pys "token", .str (pys "t"))]), []))
    ∧ pack_message (pys "HELLO") Json.objNil = .error .typeTooLong :=
  ⟨pack_unpack_spec.1 (pys "AUTH") (jobj [(pys "token", .str (pys "t"))]) (by decide) (by decide)
      (by decide) (by decide) (by decide),
   pack_unpack_spec.2 (pys "HELLO") Json.objNil (by decide)⟩

/-- C8: a COMP frame on a session with no bound identity is answered
with ERRO NOT_AUTHENTICATED, the state unchanged and the loop still
reading; a later AUTH frame with a valid token then binds the
identity. -/
theorem comp_before_auth :
    (∀ (st : SessState) (payload : Json), st.user = none →
      dispatch_message st (pys "COMP") payload
        = .next [create_error_response (pys "NOT_AUTHENTICATED")
            (pys "Must authenticate before making completion requests")] st)
    ∧ (∀ (st : SessState) (payload : Json) (s : PyStr) (u : User),
      isObjShape payload = true → objGet payload (pys "token") = some (.str s) → s ≠ [] →
      AuthManager.authenticate st.auth s = some u →
      dispatch_message st (pys "AUTH") payload
        = .next [create_auth_response true (pys "Authentication successful")
            (AuthManager.get_user_info st.auth s)] { st with user := some u }) := by
  constructor
  · intro st payload h
    rw [dispatch_message, if_neg (show ¬pys "COMP" = pys "AUTH" from by decide),
      if_pos rfl, h]
  · intro st payload s u hobj htok hs hauth
    rw [dispatch_message, if_pos rfl]
    simp only [if_pos hobj, htok, hauth]
    rw [handle_auth, if_pos hobj, htok]
    simp only [if_neg (show ¬pyTruthy (.str s) = false from by simp [pyTruthy, hs]), hauth]

/-- C8 witness: the exchange at a concrete unauthenticated session. -/
theorem comp_before_auth_witness :
    dispatch_message ⟨none, [], cAuth, cRouter⟩ (pys "COMP") Json.objNil
      = .next [create_error_response (pys "NOT_AUTHENTICATED")
          (pys "Must authenticate before making completion requests")]
        ⟨none, [], cAuth, cRouter⟩
    ∧ dispatch_message ⟨none, [], cAuth, cRouter⟩ (pys "AUTH")
        (jobj [(pys "token", .str (pys "t"))])
      = .next [create_auth_response true (pys "Authentication successful")
          (AuthManager.get_user_info cAuth (pys "t"))] ⟨some cUser, [], cAuth, cRouter⟩ :=
  ⟨comp_before_auth.1 _ _ rfl,
   comp_before_auth.2 ⟨none, [], cAuth, cRouter⟩ (jobj [(pys "token", .str (pys "t"))])
     (pys "t") cUser (by decide) (by decide) (by decide) (by decide)⟩

/-- C2: what an AUTH frame does to the bound identity.  The reply to a
failing token is ARSP success:false, but whenever the payload carries a
token key the identity is afterwards re-assigned to the authentication
result — so a present-but-invalid token clears a previously bound
identity to none; the identity survives only when the token key is
absent altogether. -/
theorem auth_failure_rebinds :
    (∀ (st : SessState) (payload : Json) (s : PyStr),
      isObjShape payload = true → objGet payload (pys "token") = some (.str s) → s ≠ [] →
      AuthManager.authenticate st.auth s = none →
      dispatch_message st (pys "AUTH") payload
        = .next [create_auth_response false (pys "Invalid authentication token") none]
            { st with user := none })
    ∧ (∀ (st : SessState) (payload : Json),
      isObjShape payload = true → objGet payload (pys "token") = none →
      dispatch_message st (pys "AUTH") payload
        = .next [create_auth_response false
            (pys "Missing token in authentication request") none] st)
    ∧ (∀ (st : SessState) (payload : Json) (s : PyStr) (u : User),
      isObjShape payload = true → objGet payload (pys "token") = some (.str s) → s ≠ [] →
      AuthManager.authenticate st.auth s = some u →
      dispatch_message st (pys "AUTH") payload
        = .next [create_auth_response true (pys "Authentication successful")
            (AuthManager.get_user_info st.auth s)] { st with user := some u }) := by
  refine ⟨?_, ?_, ?_⟩
  · intro st payload s hobj htok hs hauth
    rw [dispatch_message, if_pos rfl]
    simp only [if_pos hobj, htok, hauth]
    rw [handle_auth, if_pos hobj, htok]
    simp only [if_neg (show ¬pyTruthy (.str s) = false from by simp [pyTruthy, hs]), hauth]
  · intro st payload hobj htok
    rw [dispatch_message, if_pos rfl]
    simp only [if_pos hobj, htok]
    rw [handle_auth, if_pos hobj, htok]
  · intro st payload s u hobj htok hs hauth
    rw [dispatch_message, if_pos rfl]
    simp only [if_pos hobj, htok, hauth]
    rw [handle_auth, if_pos hobj, htok]
    simp only [if_neg (show ¬pyTruthy (.str s) = false from by simp [pyTruthy, hs]), hauth]

/-- C2 counterexample: a session bound to cUser receives an AUTH frame
with the unknown token "bad"; the reply is ARSP success:false, yet the
bound identity is not unchanged — it is cleared to none. -/
theorem auth_failure_clears_identity_cex :
    cStA.user = some cUser
    ∧ dispatch_message cStA (pys "AUTH") (jobj [(pys "token", .str (pys "bad"))])
        = .next [create_auth_response false (pys "Invalid authentication token") none]
            { cStA with user := none } := ⟨by decide, by decide⟩

/-- C2 witness: the three AUTH outcomes at concrete frames. -/
theorem auth_failure_rebinds_witness :
    dispatch_message cStA (pys "AUTH") (jobj [(pys "token", .str (pys "zz"))])
      = .next [create_auth_response false (pys "Invalid authentication token") none]
          { cStA with user := none }
    ∧ dispatch_message cStA (pys "AUTH") Json.objNil
      = .next [create_auth_response false
          (pys "Missing token in authentication request") none] cStA
    ∧ dispatch_message cStA (pys "AUTH") (jobj [(pys "token", .str (pys "t"))])
      = .next [create_auth_response true (pys "Authentication successful")
          (AuthManager.get_user_info cStA.auth (pys "t"))] { cStA with user := some cUser } :=
  ⟨auth_failure_rebinds.1 cStA (jobj [(pys "token", .str (pys "zz"))]) (pys "zz")
      (by decide) (by decide) (by decide) (by decide),
   auth_failure_rebinds.2.1 cStA Json.objNil (by decide) (by decide),
   auth_failure_rebinds.2.2 cStA (jobj [(pys "token", .str (pys "t"))]) (pys "t") cUser
      (by decide) (by decide) (by decide) (by decide)⟩

/-- C4: at the instant check_rate_limit allows, the stored window for
the token is the pruned old window plus now — at most the configured
limit many timestamps, each strictly newer than now minus the period; a
rejected call stores the pruned window with nothing appended, and an
unknown token is denied with the whole state untouched. -/
theorem check_rate_limit_window_invariant (st : AuthState) (token : PyStr) (now : Int) :
    (AuthManager.authenticate st token = none →
      AuthManager.check_rate_limit st token now = (false, st))
    ∧ ∀ user, AuthManager.authenticate st token = some user →
      (((AuthManager.check_rate_limit st token now).1 = true →
        dictGet (AuthManager.check_rate_limit st token now).2.rate_limit_tracker token
          = some (((dictGet st.rate_limit_tracker token).getD []).filter
              (fun ts => now - ((AuthManager.parse_rate_limit user.rate_limit).2 : Int) < ts)
              ++ [now])
        ∧ ((((dictGet st.rate_limit_tracker token).getD []).filter
              (fun ts => now - ((AuthManager.parse_rate_limit user.rate_limit).2 : Int)
                < ts)).length + 1 : Int) ≤ (AuthManager.parse_rate_limit user.rate_limit).1
        ∧ ∀ ts ∈ (dictGet (AuthManager.check_rate_limit st token now).2.rate_limit_tracker
              token).getD [],
            now - ((AuthManager.parse_rate_limit user.rate_limit).2 : Int) < ts)
      ∧ ((AuthManager.check_rate_limit st token now).1 = false →
        dictGet (AuthManager.check_rate_limit st token now).2.rate_limit_tracker token
          = some (((dictGet st.rate_limit_tracker token).getD []).filter
              (fun ts => now - ((AuthManager.parse_rate_limit user.rate_limit).2 : Int)
                < ts)))) := by
  constructor
  · intro h
    rw [AuthManager.check_rate_limit, h]
  · intro user hu
    set w := (dictGet st.rate_limit_tracker token).getD [] with hw
    set K := w.filter
      (fun ts => now - ((AuthManager.parse_rate_limit user.rate_limit).2 : Int) < ts) with hK
    have hcr : AuthManager.check_rate_limit st token now
        = if (AuthManager.parse_rate_limit user.rate_limit).1 ≤ (K.length : Int)
          then (false, (⟨st.users, dictSet st.rate_limit_tracker token K⟩ : AuthState))
          else (true, (⟨st.users,
              dictSet (dictSet st.rate_limit_tracker token K) token (K ++ [now])⟩ : AuthState)) := by
      rw [AuthManager.check_rate_limit, hu]
    by_cases hif : (AuthManager.parse_rate_limit user.rate_limit).1 ≤ (K.length : Int)
    · rw [hcr, if_pos hif]
      constructor
      · intro h
        simp at h
      · intro _
        exact dictGet_dictSet st.rate_limit_tracker token K
    · rw [hcr, if_neg hif]
      constructor
      · intro _
        refine ⟨dictGet_dictSet _ token (K ++ [now]), by omega, ?_⟩
        intro ts hts
        rw [dictGet_dictSet] at hts
        simp only [Option.getD_some, List.mem_append, List.mem_singleton] at hts
        rcases hts with hts | rfl
        · have := List.of_mem_filter hts
          simpa using this
        · have := parse_rate_limit_period_pos user.rate_limit
          omega
      · intro h
        simp at h

/-- C4 witness: cUser is over the 1/minute limit at time 1000; the call
is denied and the stored window is exactly the pruned one. -/
theorem check_rate_limit_window_invariant_witness :
    dictGet (AuthManager.check_rate_limit cAuth (pys "t") 1000).2.rate_limit_tracker (pys "t")
      = some (((dictGet cAuth.rate_limit_tracker (pys "t")).getD []).filter
          (fun ts => 1000 - ((AuthManager.parse_rate_limit cUser.rate_limit).2 : Int) < ts)) :=
  (((check_rate_limit_window_invariant cAuth (pys "t") 1000).2 cUser (by decide)).2) (by decide)

/-- Three model records: an ollama model, an openai model (dropped when
no OPENAI_API_KEY is set) and one with an unsupported provider kind. -/
def cEntries : List ModelRouter.ModelEntry :=
  [⟨pys "m1", pys "ollama", Json.objNil⟩,
   ⟨pys "m2", pys "openai", Json.objNil⟩,
   ⟨pys "m3", pys "vllm", Json.objNil⟩]

/-- C9: after loading, an entry whose provider handle could not be
constructed is absent from the available models, gets no provider handle
and does not count as available, while its raw config is still stored;
the available models are exactly the ids whose construction succeeded,
in configuration order. -/
theorem router_load_spec (env : Option PyStr) (entries : List ModelRouter.ModelEntry)
    (hnd : (entries.map ModelRouter.ModelEntry.id).Nodup) :
    (∀ e ∈ entries,
      ModelRouter.get_model_config (ModelRouter.load_models env entries) e.id = some e.raw
      ∧ (ModelRouter.create_provider env e.provider = none →
          ModelRouter.get_provider_for_model (ModelRouter.load_models env entries) e.id = none
          ∧ e.id ∉ ModelRouter.get_available_models (ModelRouter.load_models env entries)
          ∧ ModelRouter.is_model_available (ModelRouter.load_models env entries) e.id = false))
    ∧ ModelRouter.get_available_models (ModelRouter.load_models env entries)
        = (entries.filter (fun e => (ModelRouter.create_provider env e.provider).isSome)).map
            ModelRouter.ModelEntry.id := by
  obtain ⟨hprov, hconf⟩ := load_models_spec env entries hnd
  have havail : ModelRouter.get_available_models (ModelRouter.load_models env entries)
      = (entries.filter (fun e => (ModelRouter.create_provider env e.provider).isSome)).map
          ModelRouter.ModelEntry.id := by
    rw [ModelRouter.get_available_models, hprov, map_fst_filterMap_create]
  refine ⟨?_, havail⟩
  intro e he
  constructor
  · rw [ModelRouter.get_model_config, hconf]
    have hmem : (e.id, e.raw) ∈ entries.map (fun e => (e.id, e.raw)) :=
      List.mem_map_of_mem _ he
    have hnd2 : ((entries.map (fun e => (e.id, e.raw))).map Prod.fst).Nodup := by
      rw [List.map_map]
      simpa [Function.comp] using hnd
    exact dictGet_of_nodup _ hnd2 (e.id, e.raw) hmem
  · intro hnone
    have hnotmem : e.id ∉ (ModelRouter.load_models env entries).model_providers.map Prod.fst := by
      rw [hprov, map_fst_filterMap_create]
      intro hmem
      rw [List.mem_map] at hmem
      obtain ⟨e2, he2, heq⟩ := hmem
      rw [List.mem_filter] at he2
      have he2e : e2 = e := List.inj_on_of_nodup_map hnd he2.1 he heq
      rw [he2e, hnone] at he2
      simp at he2
    refine ⟨?_, ?_, ?_⟩
    · rw [ModelRouter.get_provider_for_model]
      exact dictGet_notMem _ _ hnotmem
    · rw [ModelRouter.get_available_models]
      exact hnotmem
    · rw [ModelRouter.is_model_available, dictGet_notMem _ _ hnotmem]
      rfl

/-- C9 witness: loading cEntries with no OPENAI_API_KEY leaves only m1
available while m2 keeps its stored config. -/
theorem router_load_spec_witness :
    ModelRouter.get_available_models (ModelRouter.load_models none cEntries)
        = (cEntries.filter
            (fun e => (ModelRouter.create_provider none e.provider).isSome)).map
            ModelRouter.ModelEntry.id :=
  (router_load_spec none cEntries (by decide)).2

/-- C10: a frame whose declared payload length exceeds 10 MiB is a
recoverable content failure: the session answers ERRO INVALID_FORMAT
naming the length and keeps its read loop, with the stream positioned
right after the 8 header bytes — the declared payload bytes were never
consumed. -/
theorem oversize_length_recoverable (st : SessState) (t4 : List Nat) (pl : Nat)
    (rest : List Nat) (ht : t4.length = 4) (hascii : t4.all (fun c => c < 128) = true)
    (hpl : 10485760 < pl) (hpl32 : pl < 4294967296)
    (hstream : st.stream = t4 ++ (be32 pl ++ rest)) :
    server_step st = .next
      [create_error_response (pys "INVALID_FORMAT")
        (pys "Payload too large: " ++ (natDec pl ++ pys " bytes"))]
      { st with stream := rest } := by
  have hlen1 : 4 ≤ (t4 ++ (be32 pl ++ rest)).length := by
    simp [List.length_append, ht]
  have htake4 : (t4 ++ (be32 pl ++ rest)).take 4 = t4 := by
    rw [← ht]
    exact List.take_left t4 _
  have hdrop4 : (t4 ++ (be32 pl ++ rest)).drop 4 = be32 pl ++ rest := by
    rw [← ht]
    exact List.drop_left t4 _
  have hbe32len : (be32 pl).length = 4 := rfl
  have hlen2 : 4 ≤ (be32 pl ++ rest).length := by
    simp [List.length_append, hbe32len]
  have htake4b : (be32 pl ++ rest).take 4 = be32 pl := by
    rw [← hbe32len]
    exact List.take_left _ rest
  have hdrop4b : (be32 pl ++ rest).drop 4 = rest := by
    rw [← hbe32len]
    exact List.drop_left _ rest
  have hbeval : be32val (pl / 16777216 % 256) (pl / 65536 % 256) (pl / 256 % 256) (pl % 256)
      = pl := be32_roundtrip pl hpl32
  have hunpack : unpack_message_from_stream (t4 ++ (be32 pl ++ rest))
      = (.error (.payloadTooLarge pl), rest) := by
    rw [unpack_message_from_stream]
    simp only [htake4, hdrop4, htake4b, hdrop4b, if_pos hlen1, if_pos hlen2, ht]
    simp only [be32, hbeval, if_neg (show ¬((4 : Nat) ≠ 4) from by omega)]
    simp [hascii, hpl]
  rw [server_step, hstream, hunpack]
  rfl

/-- A session whose stream holds a COMP header declaring a payload one
byte over the 10 MiB cap, followed by one stray byte. -/
def cStOversize : SessState :=
  ⟨none, [67, 79, 77, 80] ++ (be32 10485761 ++ [9]), cAuth, cRouter⟩

/-- C10 witness: the oversize frame at a concrete session. -/
theorem oversize_length_recoverable_witness :
    server_step cStOversize = .next
      [create_error_response (pys "INVALID_FORMAT")
        (pys "Payload too large: " ++ (natDec 10485761 ++ pys " bytes"))]
      { cStOversize with stream := [9] } :=
  oversize_length_recoverable cStOversize [67, 79, 77, 80] 10485761 [9] (by decide) (by decide)
    (by decide) (by decide) rfl

/-- C6: what unpack actually returns at each of the three read
boundaries cut short: always incompleteRead — the model of
asyncio.IncompleteReadError, an EOFError — carrying expected and
received counts; and no failure unpack can return is a ConnectionError,
so the distinct connection-closed-while-reading raises guarding the
type, length and payload reads never fire. -/
theorem short_read_behaviour :
    (∀ bs : List Nat, bs.length < 4 →
      unpack_message_from_stream bs = (.error (.incompleteRead 4 bs.length), []))
    ∧ (∀ bs : List Nat, 4 ≤ bs.length → bs.length < 8 →
      (bs.take 4).all (fun c => c < 128) = true →
      unpack_message_from_stream bs = (.error (.incompleteRead 4 (bs.length - 4)), []))
    ∧ (∀ (t4 : List Nat) (pl : Nat) (rest : List Nat), t4.length = 4 →
      t4.all (fun c => c < 128) = true → 0 < pl → pl ≤ 10485760 → rest.length < pl →
      unpack_message_from_stream (t4 ++ (be32 pl ++ rest))
        = (.error (.incompleteRead pl rest.length), []))
    ∧ (∀ (bs rest : List Nat) (e : UnpackErr),
      unpack_message_from_stream bs = (.error e, rest) → e.isConnError = false) := by
  refine ⟨?_, ?_, ?_, ?_⟩
  · intro bs h
    rw [unpack_message_from_stream, if_neg (show ¬4 ≤ bs.length from by omega)]
  · intro bs h4 h8 hascii
    rw [unpack_message_from_stream]
    simp only [if_pos h4, List.length_take]
    rw [if_neg (show ¬(min 4 bs.length ≠ 4) from by omega), if_pos hascii,
      if_neg (show ¬4 ≤ (bs.drop 4).length from by simp only [List.length_drop]; omega)]
    simp only [List.length_drop]
  · intro t4 pl rest ht hascii hpos hple hrest
    have hlen1 : 4 ≤ (t4 ++ (be32 pl ++ rest)).length := by
      simp [List.length_append, ht]
    have htake4 : (t4 ++ (be32 pl ++ rest)).take 4 = t4 := by
      rw [← ht]
      exact List.take_left t4 _
    have hdrop4 : (t4 ++ (be32 pl ++ rest)).drop 4 = be32 pl ++ rest := by
      rw [← ht]
      exact List.drop_left t4 _
    have hbe32len : (be32 pl).length = 4 := rfl
    have hlen2 : 4 ≤ (be32 pl ++ rest).length := by
      simp [List.length_append, hbe32len]
    have htake4b : (be32 pl ++ rest).take 4 = be32 pl := by
      rw [← hbe32len]
      exact List.take_left _ rest
    have hdrop4b : (be32 pl ++ rest).drop 4 = rest := by
      rw [← hbe32len]
      exact List.drop_left _ rest
    have hbeval : be32val (pl / 16777216 % 256) (pl / 65536 % 256) (pl / 256 % 256) (pl % 256)
        = pl := be32_roundtrip pl (by omega)
    rw [unpack_message_from_stream]
    simp only [htake4, hdrop4, htake4b, hdrop4b, if_pos hlen1, if_pos hlen2, ht]
    simp only [be32, hbeval, if_neg (show ¬((4 : Nat) ≠ 4) from by omega)]
    simp [hascii, if_neg (show ¬10485760 < pl from by omega), if_pos hpos,
      if_neg (show ¬pl ≤ rest.length from by omega)]
  · intro bs rest e h
    rw [unpack_message_from_stream] at h
    by_cases h1 : 4 ≤ bs.length
    · simp only [if_pos h1] at h
      rw [if_neg (show ¬((bs.take 4).length ≠ 4) from by
        simp only [List.length_take]; omega)] at h
      by_cases h2 : (bs.take 4).all (fun c => c < 128) = true
      · rw [if_pos h2] at h
        by_cases h3 : 4 ≤ (bs.drop 4).length
        · rw [if_pos h3] at h
          rw [if_neg (show ¬(((bs.drop 4).take 4).length ≠ 4) from by
            simp only [List.length_take]; omega)] at h
          have hl4 : ((bs.drop 4).take 4).length = 4 := by
            simp only [List.length_take]; omega
          rcases hlb : (bs.drop 4).take 4 with _ | ⟨b0, _ | ⟨b1, _ | ⟨b2, _ | ⟨b3, tl⟩⟩⟩⟩ <;>
            rw [hlb] at hl4 h
          · simp at hl4
          · simp at hl4
          · simp at hl4
          · simp at hl4
          have htl : tl = [] := by
            simp only [List.length_cons] at hl4
            exact List.eq_nil_of_length_eq_zero (by omega)
          subst htl
          simp only [] at h
          by_cases h4 : 10485760 < be32val b0 b1 b2 b3
          · rw [if_pos h4] at h
            cases h
            rfl
          · rw [if_neg h4] at h
            by_cases h5 : 0 < be32val b0 b1 b2 b3
            · rw [if_pos h5] at h
              by_cases h6 : be32val b0 b1 b2 b3 ≤ ((bs.drop 4).drop 4).length
              · rw [if_pos h6] at h
                rw [if_neg (show ¬((((bs.drop 4).drop 4).take (be32val b0 b1 b2 b3)).length
                    ≠ be32val b0 b1 b2 b3) from by simp only [List.length_take]; omega)] at h
                rcases hdec : utf8Decode (((bs.drop 4).drop 4).take (be32val b0 b1 b2 b3))
                    with _ | cps
                · rw [hdec] at h
                  cases h
                  rfl
                · rw [hdec] at h
                  simp only [] at h
                  rcases hjson : json_loads cps with _ | payload
                  · rw [hjson] at h
                    cases h
                    rfl
                  · rw [hjson] at h
                    simp at h
              · rw [if_neg h6] at h
                cases h
                rfl
            · rw [if_neg h5] at h
              simp at h
        · rw [if_neg h3] at h
          cases h
          rfl
      · rw [if_neg h2] at h
        cases h
        rfl
    · rw [if_neg h1] at h
      cases h
      rfl

/-- C1: the admission pipelines.  On HTTP and WebSocket a completion
request passes authenticate, then the rate limit, then per-model
authorization, then provider lookup, short-circuiting at the first
failure — authentication failure outranks rate-limit failure, which
outranks authorization failure, which outranks model-not-found.  On TCP
there is no rate-limit check anywhere: a caller whose rate limit is
exhausted at that very instant still reaches the authorization check and,
when authorized, is served the completion. -/
theorem admission_pipeline :
    (∀ (auth : AuthState) (router : ModelRouter Provider) (now : Int) (hdr : PyStr)
        (req : ChatRequest), isPreOf (pys "Bearer ") hdr = true →
      AuthManager.authenticate auth (hdr.drop 7) = none →
      (chat_completions auth router now (some hdr) req).1
        = .httpError 401 (pys "Invalid authentication token"))
    ∧ (∀ (auth : AuthState) (router : ModelRouter Provider) (now : Int) (hdr : PyStr)
        (req : ChatRequest) (u : User), isPreOf (pys "Bearer ") hdr = true →
      AuthManager.authenticate auth (hdr.drop 7) = some u →
      (AuthManager.check_rate_limit auth (hdr.drop 7) now).1 = false →
      (chat_completions auth router now (some hdr) req).1
        = .httpError 429 (pys "Rate limit exceeded. Please try again later."))
    ∧ (∀ (auth : AuthState) (router : ModelRouter Provider) (now : Int) (hdr : PyStr)
        (req : ChatRequest) (u : User), isPreOf (pys "Bearer ") hdr = true →
      AuthManager.authenticate auth (hdr.drop 7) = some u →
      (AuthManager.check_rate_limit auth (hdr.drop 7) now).1 = true →
      AuthManager.is_authorized auth (hdr.drop 7) req.model = false →
      (chat_completions auth router now (some hdr) req).1
        = .httpError 403 (pys "User not authorized to use model: " ++ req.model))
    ∧ (∀ (auth : AuthState) (router : ModelRouter Provider) (now : Int) (hdr : PyStr)
        (req : ChatRequest) (u : User), isPreOf (pys "Bearer ") hdr = true →
      AuthManager.authenticate auth (hdr.drop 7) = some u →
      (AuthManager.check_rate_limit auth (hdr.drop 7) now).1 = true →
      AuthManager.is_authorized auth (hdr.drop 7) req.model = true →
      ModelRouter.get_provider_for_model router req.model = none →
      (chat_completions auth router now (some hdr) req).1
        = .httpError 404 (pys "Model not found: " ++ req.model))
    ∧ (∀ (auth : AuthState) (router : ModelRouter Provider) (now : Int) (data : Json)
        (s : PyStr), isObjShape data = true →
      objGet data (pys "token") = some (.str s) → s ≠ [] →
      AuthManager.authenticate auth s = none →
      (ws_handle_message auth router now data).1
        = [.errorMsg (pys "Invalid token") (pys "authentication_error")])
    ∧ (∀ (auth : AuthState) (router : ModelRouter Provider) (now : Int) (data : Json)
        (s : PyStr) (u : User), isObjShape data = true →
      objGet data (pys "token") = some (.str s) → s ≠ [] →
      AuthManager.authenticate auth s = some u →
      (AuthManager.check_rate_limit auth s now).1 = false →
      (ws_handle_message auth router now data).1
        = [.errorMsg (pys "Rate limit exceeded") (pys "rate_limit_error")])
    ∧ (∀ (st : SessState) (payload : Json) (m : PyStr) (u : User) (now : Int),
      st.user = some u → isObjShape payload = true →
      objGet payload (pys "model") = some (.str m) → m ≠ [] →
      (AuthManager.check_rate_limit st.auth u.token now).1 = false →
      AuthManager.is_authorized st.auth u.token m = false →
      dispatch_message st (pys "COMP") payload
        = .next [create_error_response (pys "UNAUTHORIZED_MODEL")
            (pys "User not authorized to use model: " ++ m)] st)
    ∧ (∀ (st : SessState) (payload : Json) (m : PyStr) (u : User) (p : Provider) (now : Int),
      st.user = some u → isObjShape payload = true →
      objGet payload (pys "model") = some (.str m) → m ≠ [] →
      objGet payload (pys "settings") = none →
      (AuthManager.check_rate_limit st.auth u.token now).1 = false →
      AuthManager.is_authorized st.auth u.token m = true →
      ModelRouter.get_provider_for_model st.router m = some p →
      dispatch_message st (pys "COMP") payload = .next (tcpRelay p) st) := by
  refine ⟨?_, ?_, ?_, ?_, ?_, ?_, ?_, ?_⟩
  · intro auth router now hdr req hpre hauth
    simp [chat_completions, extract_token, hpre, hauth]
  · intro auth router now hdr req u hpre hauth hrl
    simp [chat_completions, extract_token, hpre, hauth, hrl]
  · intro auth router now hdr req u hpre hauth hrl hz
    have husers := check_rate_limit_users auth (hdr.drop 7) now
    have hz2 : AuthManager.is_authorized
        (AuthManager.check_rate_limit auth (hdr.drop 7) now).2 (hdr.drop 7) req.model = false :=
      (is_authorized_of_users_eq _ auth (hdr.drop 7) req.model husers).trans hz
    simp [chat_completions, extract_token, hpre, hauth, hrl, hz2]
  · intro auth router now hdr req u hpre hauth hrl hz hprov
    have husers := check_rate_limit_users auth (hdr.drop 7) now
    have hz2 : AuthManager.is_authorized
        (AuthManager.check_rate_limit auth (hdr.drop 7) now).2 (hdr.drop 7) req.model = true :=
      (is_authorized_of_users_eq _ auth (hdr.drop 7) req.model husers).trans hz
    simp [chat_completions, extract_token, hpre, hauth, hrl, hz2, hprov]
  · intro auth router now data s hobj htok hs hauth
    simp [ws_handle_message, hobj, htok, pyTruthy, hs, hauth]
  · intro auth router now data s u hobj htok hs hauth hrl
    simp [ws_handle_message, hobj, htok, pyTruthy, hs, hauth, hrl]
  · intro st payload m u now hu hobj hm hm2 hrl hz
    rw [dispatch_message, if_neg (show ¬pys "COMP" = pys "AUTH" from by decide),
      if_pos rfl, hu]
    simp only []
    rw [handle_completion, if_pos hobj]
    simp only [hm, Option.getD_some]
    rw [if_neg (show ¬pyTruthy (.str m) = false from by simp [pyTruthy, hm2])]
    simp only [is_authorizedJson, hz]
    simp [pyStrOfJson]
  · intro st payload m u p now hu hobj hm hm2 hset hrl hz hprov
    rw [dispatch_message, if_neg (show ¬pys "COMP" = pys "AUTH" from by decide),
      if_pos rfl, hu]
    simp only []
    rw [handle_completion, if_pos hobj]
    simp only [hm, hset, Option.getD_some, Option.getD_none]
    rw [if_neg (show ¬pyTruthy (.str m) = false from by simp [pyTruthy, hm2])]
    simp only [is_authorizedJson, hz]
    simp [getProviderJson, hprov, isObjShape]

/-- C1 counterexample: one caller, one instant.  cUser is over its
1/minute limit at time 1000: the HTTP endpoint answers 429, but a TCP
COMP for the same model is served in full — the TCP path performs no
rate-limit check. -/
theorem tcp_rate_limit_bypass_cex :
    (AuthManager.check_rate_limit cAuth (pys "t") 1000).1 = false
    ∧ (chat_completions cAuth cRouter 1000 (some (pys "Bearer t")) ⟨pys "m", true⟩).1
        = .httpError 429 (pys "Rate limit exceeded. Please try again later.")
    ∧ dispatch_message cStA (pys "COMP") cCompPayload
        = .next [create_completion_chunk (pys "Hi") false, create_completion_chunk [] true]
            cStA := ⟨by decide, by decide, by decide⟩

/-- C1 witness: the HTTP 401 at an unknown bearer token, and the served
TCP completion for the over-limit caller. -/
theorem admission_pipeline_witness :
    (chat_completions cAuth cRouter 1000 (some (pys "Bearer z")) ⟨pys "m", true⟩).1
        = .httpError 401 (pys "Invalid authentication token")
    ∧ dispatch_message cStA (pys "COMP") cCompPayload = .next (tcpRelay cProv) cStA :=
  ⟨admission_pipeline.1 cAuth cRouter 1000 (pys "Bearer z") ⟨pys "m", true⟩
      (by decide) (by decide),
   admission_pipeline.2.2.2.2.2.2.2 cStA cCompPayload (pys "m") cUser cProv 1000
      (by decide) (by decide) (by decide) (by decide) (by decide) (by decide) (by decide)
      (by decide)⟩

end Continuum
